import Mathlib

/-!
# AM2301 one-wire sensor driver (am2301.c)

A shallow embedding of the driver's edge decoder (`read_isr`), its
transaction functions (`start_read`, `do_read_data`), one iteration of the
polling loop of `read_thread` and the two show functions (`am231_show_temp`,
`am231_show_rh`), followed by theorems about them.

Conventions of the embedding

* All file-scope variables of am2301.c, the two `static` locals of `read_isr`
  and the locals of `read_thread` are fields of one record `State`.
* C `int` values are `Int`.  The cursor, the delay and the decoded readings stay
  far away from the limits of `int` (see `cursor_valid`, `do_read_data`), so no
  wrap-around is written for them.  Wrap-around is written where a bound can be
  met: `_ulen` receives a 64-bit microsecond count (`toInt32`), the humidity is
  cast to `int16_t` (`toInt16`), bytes of `_data` are `unsigned char`
  (`% 256`) and the two counters `_reads[0]`, `_reads[1]` are `unsigned int`
  (`% 4294967296`).
* What the kernel supplies is an input: the time stamp and pin level seen by
  one run of `read_isr`, the return values of the two `gpio_direction_*` calls
  and the return value of `wait_event_interruptible_timeout`.
* `read_isr` returns `none` where the C statement
  `_data[char_count] |= (1 << bit_count)` has no defined meaning (index outside
  the five bytes, shift count outside `0..30`).
-/

namespace AM2301

/-- Decoder states: `enum eState`. -/
inductive eState where
  | READ_START
  | READ_START_HIGH
  | READ_BIT_START
  | READ_BIT_HIGH
  | READ_BIT_LOW
  | READ_STOP
  deriving DecidableEq, Repr

/-- One reading in tenths: `struct st_inf`. -/
structure st_inf where
  t : Int
  rh : Int
  deriving DecidableEq, Repr

/-- Retry delay after a rejected or first reading: `#define SHORT_DELAY 3`. -/
def SHORT_DELAY : Int := 3

/-- Regular polling delay: `#define DEFAULT_DELAY 30`. -/
def DEFAULT_DELAY : Int := 30

/-- The variables of the module.
`read_req` is `_read_req`, `old` is `_old` (a `ktime_t`, nanoseconds), `ulen` is
`_ulen`, `reads0` and `reads1` are `_reads[0]` and `_reads[1]`, `data` is
`_data[5]`, `bit_count` and `char_count` are the statics of `read_isr`,
`read_delay` is `_read_delay`, and `local_delay`, `s`, `sp` are the variables of
`read_thread`. -/
structure State where
  read_req : eState
  old : Int
  ulen : Int
  sns : st_inf
  reads0 : Nat
  reads1 : Nat
  data : List Nat
  bit_count : Int
  char_count : Int
  read_delay : Int
  local_delay : Int
  s : st_inf
  sp : st_inf
  deriving DecidableEq, Repr

/-- The state after module load: the initialisers of am2301.c, zero for every
static without one. -/
def init : State :=
  { read_req := .READ_STOP, old := 0, ulen := 0, sns := ⟨0, 0⟩, reads0 := 0, reads1 := 0,
    data := [0, 0, 0, 0, 0], bit_count := 0, char_count := 0, read_delay := DEFAULT_DELAY,
    local_delay := 0, s := ⟨0, 0⟩, sp := ⟨0, 0⟩ }

/-- Conversion of a wider integer to `int` (two's complement, 32 bits). -/
def toInt32 (x : Int) : Int := (x + 2147483648) % 4294967296 - 2147483648

/-- Conversion to `int16_t` (two's complement, 16 bits). -/
def toInt16 (x : Int) : Int := (x + 32768) % 65536 - 32768

/-- Kernel helper `ktime_us_delta(later, earlier)`: the difference of two
nanosecond time stamps in whole microseconds (64-bit division, truncating). -/
def ktime_us_delta (later earlier : Int) : Int := Int.tdiv (later - earlier) 1000

/-- Line 167, `_data[char_count] |= (1 << bit_count);`. -/
def data_or_bit (g : State) : Option State :=
  if 0 ≤ g.char_count ∧ g.char_count < 5 ∧ 0 ≤ g.bit_count ∧ g.bit_count < 31 then
    some { g with
      data := g.data.set g.char_count.toNat
        ((g.data.getD g.char_count.toNat 0 ||| (1 <<< g.bit_count.toNat)) % 256) }
  else none

/-- Lines 169-172, `if (--bit_count < 0) { char_count++; bit_count = 7; }`. -/
def next_bit (g : State) : State :=
  let g1 := { g with bit_count := g.bit_count - 1 }
  if g1.bit_count < 0 then { g1 with char_count := g1.char_count + 1, bit_count := 7 } else g1

/-- The interrupt handler `read_isr`, run for one edge: `now` is the value of
`ktime_get_real()` and `level` the value of `gpio_get_value(_pin)`. -/
def read_isr (now level : Int) (g : State) : Option State :=
  (match g.read_req with
    | .READ_START =>
      some (if level = 0 then { g with read_req := .READ_START_HIGH } else g)
    | .READ_START_HIGH =>
      some (if level = 1 then { g with read_req := .READ_BIT_START } else g)
    | .READ_BIT_START =>
      some (if level = 0 then
        { g with read_req := .READ_BIT_HIGH, bit_count := 7, char_count := 0,
                 data := List.replicate 5 0 }
      else g)
    | .READ_BIT_HIGH =>
      some (if level = 1 then { g with read_req := .READ_BIT_LOW } else g)
    | .READ_BIT_LOW =>
      if level = 0 then
        let g1 := { g with ulen := toInt32 (ktime_us_delta now g.old) }
        (if g1.ulen > 40 then data_or_bit g1 else some g1).map fun (g2 : State) =>
          let g3 := next_bit g2
          if g3.char_count = 5 then { g3 with read_req := .READ_STOP }
          else { g3 with read_req := .READ_BIT_HIGH }
      else some g
    | .READ_STOP => some g).map fun (g4 : State) => { g4 with old := now }

/-- The handler run for a list of edges `(now, level)`, oldest first. -/
def isr_run : List (Int × Int) → State → Option State
  | [], g => some g
  | ev :: evs, g => (read_isr ev.1 ev.2 g).bind (isr_run evs)

/-- Line 209 of `start_read`, `_read_req = READ_START;`: the decoder is armed. -/
def arm (g : State) : State := { g with read_req := .READ_START }

/-- The function `start_read`; `gpio_out` and `gpio_in` are the values returned by
`gpio_direction_output` and `gpio_direction_input`. -/
def start_read (gpio_out gpio_in : Int) (g : State) : Int × State :=
  if gpio_out ≠ 0 then (gpio_out, g)
  else
    let g1 := arm g
    if gpio_in ≠ 0 then (gpio_in, g1) else (0, g1)

/-- Line 232, the checksum of the first four bytes. -/
def cks (data : List Nat) : Nat :=
  (data.getD 0 0 + data.getD 1 0 + data.getD 2 0 + data.getD 3 0) &&& 0xFF

/-- Lines 238-240, the reading held by a frame. -/
def decode (data : List Nat) : st_inf :=
  let rh : Int := toInt16 (((data.getD 0 0 <<< 8) ||| data.getD 1 0 : Nat) : Int)
  let t : Int := ((((data.getD 2 0 &&& 0x7F) <<< 8) ||| data.getD 3 0 : Nat) : Int)
  { t := if data.getD 2 0 &&& 0x80 ≠ 0 then -t else t, rh := rh }

/-- The function `do_read_data(&s)`.  The thread sleeps in
`wait_event_interruptible_timeout`; `evs` are the edges the handler sees
meanwhile and `w` is the value the wait returns (0 when the time ran out). -/
def do_read_data (evs : List (Int × Int)) (w : Int) (g : State) : Option (Int × State) :=
  (isr_run evs g).map fun (g1 : State) =>
    if w = 0 then (-1, { g1 with read_req := .READ_STOP })
    else if cks g1.data ≠ g1.data.getD 4 0 then (-1, g1)
    else (0, { g1 with s := decode g1.data })

/-- What the kernel supplies during one iteration of the loop of `read_thread`. -/
structure Env where
  gpio_out : Int
  gpio_in : Int
  events : List (Int × Int)
  wait : Int
  deriving DecidableEq, Repr

/-- Lines 266-267, `local_delay = _read_delay; _reads[0]++;`. -/
def begin_read (g : State) : State :=
  { g with local_delay := g.read_delay, reads0 := (g.reads0 + 1) % 4294967296 }

/-- Lines 277-300, the branch of `read_thread` taken when `do_read_data`
returned 0 and left the reading in `s`. -/
def filter (g : State) : State :=
  let g1 :=
    if g.reads1 = 0 then
      { g with local_delay := SHORT_DELAY, reads1 := (g.reads1 + 1) % 4294967296 }
    else if g.s.t - g.sp.t > 50 ∨ g.s.t - g.sp.t < -50 ∨
        g.s.rh - g.sp.rh > 100 ∨ g.s.rh - g.sp.rh < -100 then
      { g with local_delay := SHORT_DELAY }
    else
      { g with sns := g.s, reads1 := (g.reads1 + 1) % 4294967296 }
  { g1 with sp := g1.s }

/-- One iteration of the `while` loop of `read_thread`. -/
def read_thread_iter (e : Env) (g : State) : Option State :=
  if g.local_delay ≠ 0 then
    isr_run e.events { g with local_delay := g.local_delay - 1 }
  else
    let r := start_read e.gpio_out e.gpio_in (begin_read g)
    if r.1 ≠ 0 then some r.2
    else
      (do_read_data e.events e.wait r.2).map fun (d : Int × State) =>
        if d.1 ≠ 0 then { d.2 with local_delay := SHORT_DELAY } else filter d.2

/-- Iterations of the loop, one per element of the list. -/
def run : List Env → State → Option State
  | [], g => some g
  | e :: es, g => (read_thread_iter e g).bind (run es)

/-- Edges of the high pulses of a frame: each pulse `(rise, fall)` is a rising edge
(level 1) at `rise` followed by a falling edge (level 0) at `fall`. -/
def pulses : List (Int × Int) → List (Int × Int)
  | [] => []
  | p :: ps => (p.1, 1) :: (p.2, 0) :: pulses ps

/-- Edges of a well-formed transaction: the sensor pulls the line low at `t0`,
releases it at `t1`, starts the first bit at `t2`, then sends the pulses `ps`. -/
def transaction (t0 t1 t2 : Int) (ps : List (Int × Int)) : List (Int × Int) :=
  (t0, 0) :: (t1, 1) :: (t2, 0) :: pulses ps

/-- Pulses as the sensor times them, starting at `t` (nanoseconds): 26 us high
for a 0, 70 us high for a 1, one bit every 120 us. -/
def sensor_pulses (t : Int) : List Bool → List (Int × Int)
  | [] => []
  | b :: bs => (t, t + (if b then 70000 else 26000)) :: sensor_pulses (t + 120000) bs

/-- The bits of a byte, most significant first. -/
def byte_bits (b : Nat) : List Bool :=
  [b.testBit 7, b.testBit 6, b.testBit 5, b.testBit 4, b.testBit 3, b.testBit 2, b.testBit 1,
    b.testBit 0]

/-- The bits of a list of bytes in the order of transmission. -/
def frame_bits : List Nat → List Bool
  | [] => []
  | b :: bs => byte_bits b ++ frame_bits bs

/-- The edges of a transaction in which the sensor sends `bytes`. -/
def sensor_frame (bytes : List Nat) : List (Int × Int) :=
  transaction 0 80000 160000 (sensor_pulses 210000 (frame_bits bytes))

/-- Bit `i` of a frame in the order of transmission: bit `7 - i mod 8` of byte
`i div 8`. -/
def frame_bit (data : List Nat) (i : Nat) : Bool := (data.getD (i / 8) 0).testBit (7 - i % 8)

/-- The test of line 166, `_ulen > 40`, for a pulse `(rise, fall)`. -/
def long_pulse (p : Int × Int) : Bool := decide (toInt32 (ktime_us_delta p.2 p.1) > 40)

/-- Forty pulses whose first one stays high for 2147483648 us (2147483648000 ns);
the other thirty-nine are 26 us long. -/
def long_first : List (Int × Int) :=
  (210000, 2147483858000) :: sensor_pulses 2147483900000 (List.replicate 39 false)

/-- The cursor of `read_isr` points into the frame whenever a bit is being read. -/
@[reducible]
def cursor_valid (g : State) : Prop :=
  (g.read_req = .READ_BIT_HIGH ∨ g.read_req = .READ_BIT_LOW) →
    0 ≤ g.char_count ∧ g.char_count ≤ 4 ∧ 0 ≤ g.bit_count ∧ g.bit_count ≤ 7

/-- The variables written by `read_thread` only are the same in `g1` as in `g`. -/
def same_thread (g g1 : State) : Prop :=
  g1.sns = g.sns ∧ g1.reads0 = g.reads0 ∧ g1.reads1 = g.reads1 ∧
    g1.read_delay = g.read_delay ∧ g1.local_delay = g.local_delay ∧ g1.s = g.s ∧ g1.sp = g.sp

/-- The reading that the iteration decodes: the value `do_read_data` leaves in `s`
when the iteration makes an attempt, `start_read` returns 0 and `do_read_data`
returns 0; `none` in every other case. -/
def decoded (e : Env) (g : State) : Option st_inf :=
  if g.local_delay ≠ 0 then none
  else
    let r := start_read e.gpio_out e.gpio_in (begin_read g)
    if r.1 ≠ 0 then none
    else (do_read_data e.events e.wait r.2).bind fun (d : Int × State) =>
      if d.1 ≠ 0 then none else some d.2.s

/-- No iteration of the list decodes a reading: each one counts down the delay or
makes an attempt that fails. -/
def quiet : List Env → State → Bool
  | [], _ => true
  | e :: es, g => (decoded e g).isNone &&
      (match read_thread_iter e g with
        | some g1 => quiet es g1
        | none => true)

/-- An iteration in which the sensor answers with the frame `bytes` and the wait
ends before the time runs out. -/
def frame_env (bytes : List Nat) : Env :=
  { gpio_out := 0, gpio_in := 0, events := sensor_frame bytes, wait := 1 }

/-- An iteration without edges; if it makes an attempt, the wait runs out. -/
def idle_env : Env := { gpio_out := 0, gpio_in := 0, events := [], wait := 0 }

/-- A state with one accepted frame and the previous raw reading 20.0 degrees,
50.0 percent. -/
def warm : State := { init with reads1 := 1, sp := ⟨200, 500⟩ }

/-- The state after the first frame (26.0 degrees, 50.0 percent) is decoded from
the initial state. -/
def after_first : State := (read_thread_iter (frame_env [1, 244, 1, 4, 250]) init).getD init

/-- The state `after_first` once the short delay has been counted down. -/
def after_first_ready : State := (run [idle_env, idle_env, idle_env] after_first).getD init

/-- The state after the frame for 26.0 degrees is rejected from the state `warm`. -/
def after_reject : State := (read_thread_iter (frame_env [1, 244, 1, 4, 250]) warm).getD init

/-- The state `after_reject` once the short delay has been counted down. -/
def after_reject_ready : State := (run [idle_env, idle_env, idle_env] after_reject).getD init

/-- An iteration in which the sensor sends `bytes` but the wait runs out. -/
def late_env (bytes : List Nat) : Env :=
  { gpio_out := 0, gpio_in := 0, events := sensor_frame bytes, wait := 0 }

/-- An iteration in which `gpio_direction_input` fails with -22. -/
def line_error_env : Env := { gpio_out := 0, gpio_in := -22, events := [], wait := 0 }

/-- A state whose attempts counter holds the largest `unsigned int`. -/
def full_count : State := { init with reads0 := 4294967295 }

/-- Lines 222-225 of `do_read_data`, `_read_req = READ_STOP;`: the wait ran out
and the decoder is stopped. -/
def force_stop (g : State) : State := { g with read_req := .READ_STOP }

/-- What can happen to the decoder: it is armed by `start_read`, stopped by a
timeout in `do_read_data`, or `read_isr` runs for an edge. -/
inductive DecOp where
  | arm
  | timeout
  | edge (now level : Int)
  deriving DecidableEq, Repr

/-- One operation on the decoder. -/
def dec_step : DecOp → State → Option State
  | .arm, g => some (arm g)
  | .timeout, g => some (force_stop g)
  | .edge now level, g => read_isr now level g

/-- A list of operations on the decoder, oldest first. -/
def dec_run : List DecOp → State → Option State
  | [], g => some g
  | op :: ops, g => (dec_step op g).bind (dec_run ops)

/-- The domain of the cursor: byte 0..5 (5 only once the frame is complete), bit
0..7, and byte at most 4 while a bit is being read. -/
@[reducible]
def cursor_range (g : State) : Prop :=
  0 ≤ g.char_count ∧ g.char_count ≤ 5 ∧ 0 ≤ g.bit_count ∧ g.bit_count ≤ 7 ∧
    ((g.read_req = .READ_BIT_HIGH ∨ g.read_req = .READ_BIT_LOW) → g.char_count ≤ 4)

/-- The linear bit position `p = 8 * byteIndex + (7 - bitIndex)`. -/
def bit_pos (g : State) : Int := 8 * g.char_count + (7 - g.bit_count)

/-- The decoder is consistent: the cursor is in its domain and, while a bit is
being read, the buffer has five bytes and every bit from the cursor on is clear. -/
def decoder_ok (g : State) : Prop :=
  cursor_range g ∧
    ((g.read_req = .READ_BIT_HIGH ∨ g.read_req = .READ_BIT_LOW) →
      g.data.length = 5 ∧
        ∀ j, 8 * g.char_count.toNat + (7 - g.bit_count.toNat) ≤ j → j < 40 →
          frame_bit g.data j = false)

/-- The decoder in the middle of a frame: twelve pulses of the frame 1, 244, 1, 4,
250 have been read, the cursor is at byte 1, bit 3, the buffer holds 1, 240. -/
def stale : State := (isr_run ((sensor_frame [1, 244, 1, 4, 250]).take 27) (arm init)).getD init

/-- The decoder after seven pulses and the rising edge of the eighth: it waits for
the falling edge with the cursor at byte 0, bit 0. -/
def byte_end : State :=
  (isr_run ((sensor_frame [1, 244, 1, 4, 250]).take 18) (arm init)).getD init

/-- The decoder after the complete frame 1, 244, 1, 4, 250. -/
def complete : State := (isr_run (sensor_frame [1, 244, 1, 4, 250]) (arm init)).getD init

/-- Edges with a glitch: the first pulse rises at 210 us, a second interrupt sees
level 1 at 250 us, and the pulse falls at 280 us, 70 us after it rose. -/
def glitch : List (Int × Int) :=
  [(0, 0), (80000, 1), (160000, 0), (210000, 1), (250000, 1), (280000, 0)]

/-- An iteration in which the sensor stops after twelve pulses of the frame 1, 244,
1, 4, 250 and the wait runs out. -/
def cut_env : Env :=
  { gpio_out := 0, gpio_in := 0, events := (sensor_frame [1, 244, 1, 4, 250]).take 27,
    wait := 0 }

/-- The text that `am231_show_temp` passes to the sequence file: `"NaN\n"` or the
result of `seq_printf(m, "%d.%d\n", sns.t / 10, (unsigned int) abs(sns.t%10))`;
`/` and `%` are the truncating operations of C. -/
def am231_show_temp (g : State) : String :=
  if g.reads1 < 2 then "NaN\n"
  else toString (Int.tdiv g.sns.t 10) ++ "." ++ toString (Int.tmod g.sns.t 10).natAbs ++ "\n"

/-- The text that `am231_show_rh` passes to the sequence file: `"NaN\n"` or the
result of `seq_printf(m, "%d.%d\n", sns.rh / 10, sns.rh%10)`. -/
def am231_show_rh (g : State) : String :=
  if g.reads1 < 2 then "NaN\n"
  else toString (Int.tdiv g.sns.rh 10) ++ "." ++ toString (Int.tmod g.sns.rh 10) ++ "\n"

/-- Iterations in which the temperature steps from 26.0 to 40.0 degrees: the first
attempt decodes 26.0, the second and the third decode 40.0; between the attempts
the short delay is counted down. -/
def step_change : List Env :=
  [frame_env [1, 244, 1, 4, 250], idle_env, idle_env, idle_env,
    frame_env [1, 244, 1, 144, 134], idle_env, idle_env, idle_env,
    frame_env [1, 244, 1, 144, 134]]

/-- Iterations in which the sensor sends -0.5 degrees (bytes `0x80, 0x05`) twice. -/
def below_zero : List Env :=
  [frame_env [1, 244, 0x80, 5, 122], idle_env, idle_env, idle_env,
    frame_env [1, 244, 0x80, 5, 122]]

/-- A record kept beside a run: the checksum-valid readings decoded so far, most
recent first, and the number of attempts made. -/
structure History where
  decodes : List st_inf
  attempts : Nat
  deriving DecidableEq, Repr

/-- The record after one more iteration from state `g`. -/
def record (e : Env) (g : State) (h : History) : History :=
  { decodes := match decoded e g with
      | some r => r :: h.decodes
      | none => h.decodes
    attempts := if g.local_delay = 0 then h.attempts + 1 else h.attempts }

/-- Iterations of the loop together with their record. -/
def run_history : List Env → State → History → Option (State × History)
  | [], g, h => some (g, h)
  | e :: es, g, h => (read_thread_iter e g).bind fun g1 => run_history es g1 (record e g h)

/-- The most recent reading of a list (most recent first) that passes the
plausibility filter, that is, lies within 50 tenths in temperature and 100 tenths
in humidity of the reading decoded immediately before it, together with that
earlier reading. -/
def last_pass : List st_inf → Option (st_inf × st_inf)
  | r :: q :: rest =>
    if |r.t - q.t| ≤ 50 ∧ |r.rh - q.rh| ≤ 100 then some (r, q) else last_pass (q :: rest)
  | _ => none

/-- What the record says about the state, as long as fewer than 2^32 attempts have
been made. -/
def history_ok (g : State) (h : History) : Prop :=
  h.attempts < 4294967296 →
    g.reads1 ≤ h.attempts ∧ (g.reads1 = 0 ↔ h.decodes = []) ∧
      (∀ q rest, h.decodes = q :: rest → g.sp = q) ∧
      (2 ≤ g.reads1 → ∃ r q, last_pass h.decodes = some (r, q) ∧ g.sns = r)

/-- The number of accepted readings in a list of decoded readings (most recent
first): a reading counts when it is the first one decoded or lies within 50 tenths
in temperature and 100 tenths in humidity of the reading decoded immediately
before it. -/
def accepts : List st_inf → Nat
  | [] => 0
  | r :: rest =>
    (match rest with
      | [] => 1
      | q :: _ => if |r.t - q.t| ≤ 50 ∧ |r.rh - q.rh| ≤ 100 then 1 else 0) + accepts rest

/-- The accepted counter agrees with the record, as long as fewer than 2^32
attempts have been made. -/
def counted_ok (g : State) (h : History) : Prop :=
  h.attempts < 4294967296 → g.reads1 = accepts h.decodes

/-! ## Bytes and words -/

theorem cks_frame (b0 b1 b2 b3 b4 : Nat) :
    cks [b0, b1, b2, b3, b4] = (b0 + b1 + b2 + b3) % 256 := by
  have h := Nat.and_pow_two_sub_one_eq_mod (b0 + b1 + b2 + b3) 8
  simpa [cks] using h

theorem and_0x80 (b : Nat) : (b &&& 0x80 ≠ 0) ↔ b.testBit 7 = true := by
  have h := Nat.and_two_pow b 7
  norm_num at h
  rw [h]
  cases b.testBit 7 <;> simp

theorem testBit7_byte (b : Nat) (hb : b < 256) : b.testBit 7 = true ↔ 128 ≤ b := by
  rw [Nat.testBit_to_div_mod]
  simp only [decide_eq_true_eq]
  omega

theorem word_of_bytes (a b : Nat) (hb : b < 256) : (a <<< 8) ||| b = a * 256 + b := by
  have h := Nat.mul_add_lt_is_or (i := 8) (b := b) (by simpa using hb) a
  rw [Nat.shiftLeft_eq, Nat.mul_comm a (2 ^ 8), ← h]

theorem and_0x7F (b : Nat) : b &&& 0x7F = b % 128 := by
  have h := Nat.and_pow_two_sub_one_eq_mod b 7
  simpa using h

theorem decode_frame_t (b0 b1 b2 b3 b4 : Nat) :
    (decode [b0, b1, b2, b3, b4]).t =
      if b2.testBit 7 = true then -((((b2 &&& 0x7F) <<< 8) ||| b3 : Nat) : Int)
      else ((((b2 &&& 0x7F) <<< 8) ||| b3 : Nat) : Int) := by
  by_cases h : b2.testBit 7 = true
  · have h2 := (and_0x80 b2).mpr h
    simp [decode, h] at h2 ⊢
    simp [h2]
  · have h2 := mt (and_0x80 b2).mp h
    simp [decode, h] at h2 ⊢
    simp [h2]

theorem decode_frame_rh (b0 b1 b2 b3 b4 : Nat) (h1 : b1 < 256) :
    (decode [b0, b1, b2, b3, b4]).rh = toInt16 ((b0 * 256 + b1 : Nat) : Int) := by
  simp [decode, word_of_bytes b0 b1 h1]

/-! ## do_read_data -/

theorem do_read_data_of_run {evs : List (Int × Int)} {w : Int} {g g1 : State}
    (h : isr_run evs g = some g1) :
    do_read_data evs w g = some
      (if w = 0 then (-1, { g1 with read_req := .READ_STOP })
       else if cks g1.data ≠ g1.data.getD 4 0 then (-1, g1)
       else (0, { g1 with s := decode g1.data })) := by
  simp [do_read_data, h]

theorem do_read_data_frame {evs : List (Int × Int)} {w : Int} {g : State} {b0 b1 b2 b3 b4 : Nat}
    (hw : w ≠ 0) (hd : (isr_run evs g).map State.data = some [b0, b1, b2, b3, b4]) :
    ∃ g1, isr_run evs g = some g1 ∧ g1.data = [b0, b1, b2, b3, b4] ∧
      do_read_data evs w g = some
        (if (b0 + b1 + b2 + b3) % 256 ≠ b4 then (-1, g1)
         else (0, { g1 with s := decode [b0, b1, b2, b3, b4] })) := by
  obtain ⟨g1, h1, h2⟩ := Option.map_eq_some'.mp hd
  refine ⟨g1, h1, h2, ?_⟩
  rw [do_read_data_of_run h1, if_neg hw, h2, cks_frame]
  simp

/-- C1: after a completed wait (`w ≠ 0`) with the frame buffer holding `b0..b4`,
`do_read_data` returns 0 exactly when `(b0+b1+b2+b3) mod 256 = b4` and returns the
error value -1 exactly when the two differ. -/
theorem do_read_data_checksum (evs : List (Int × Int)) (w : Int) (g : State)
    (b0 b1 b2 b3 b4 : Nat) (hw : w ≠ 0)
    (hd : (isr_run evs g).map State.data = some [b0, b1, b2, b3, b4]) :
    ((do_read_data evs w g).map Prod.fst = some 0 ↔ (b0 + b1 + b2 + b3) % 256 = b4) ∧
    ((do_read_data evs w g).map Prod.fst = some (-1) ↔ (b0 + b1 + b2 + b3) % 256 ≠ b4) := by
  obtain ⟨g1, -, -, h⟩ := do_read_data_frame hw hd
  rw [h]
  by_cases hc : (b0 + b1 + b2 + b3) % 256 = b4 <;> simp [hc]

set_option maxRecDepth 100000 in
/-- C1 at a frame sent by the sensor: bytes 1, 244, 1, 4 with checksum 250. -/
theorem do_read_data_checksum_witness :
    ((1 : Int) ≠ 0 ∧
      (isr_run (sensor_frame [1, 244, 1, 4, 250]) (arm init)).map State.data =
        some [1, 244, 1, 4, 250]) ∧
    ((do_read_data (sensor_frame [1, 244, 1, 4, 250]) 1 (arm init)).map Prod.fst = some 0 ↔
      (1 + 244 + 1 + 4) % 256 = 250) :=
  ⟨⟨by decide, by decide⟩,
    (do_read_data_checksum (sensor_frame [1, 244, 1, 4, 250]) 1 (arm init) 1 244 1 4 250
      (by decide) (by decide)).1⟩

/-- C3: for a checksum-valid frame the decoded temperature is the 15-bit
magnitude `((b2 & 0x7F) << 8) | b3`, that is `(b2 mod 128) * 256 + b3`, negated
exactly when bit 7 of byte 2 is set (`b2 ≥ 128`); bytes `0x80, 0x32` give -50. -/
theorem do_read_data_temperature (evs : List (Int × Int)) (w : Int) (g : State)
    (b0 b1 b2 b3 b4 : Nat) (hw : w ≠ 0)
    (hd : (isr_run evs g).map State.data = some [b0, b1, b2, b3, b4])
    (hb2 : b2 < 256) (hb3 : b3 < 256) (hck : (b0 + b1 + b2 + b3) % 256 = b4) :
    (do_read_data evs w g).map (fun (r : Int × State) => (r.1, r.2.s.t)) =
        some ((0 : Int),
          if b2.testBit 7 = true then -((((b2 &&& 0x7F) <<< 8) ||| b3 : Nat) : Int)
          else ((((b2 &&& 0x7F) <<< 8) ||| b3 : Nat) : Int)) ∧
    ((b2 &&& 0x7F) <<< 8) ||| b3 = (b2 % 128) * 256 + b3 ∧
    (b2.testBit 7 = true ↔ 128 ≤ b2) ∧
    (b2 = 0x80 → b3 = 0x32 →
      (do_read_data evs w g).map (fun (r : Int × State) => (r.1, r.2.s.t)) =
        some ((0 : Int), (-50 : Int))) := by
  obtain ⟨g1, -, -, h⟩ := do_read_data_frame hw hd
  have ht := decode_frame_t b0 b1 b2 b3 b4
  have h1 : (do_read_data evs w g).map (fun (r : Int × State) => (r.1, r.2.s.t)) =
      some ((0 : Int), if b2.testBit 7 = true then -((((b2 &&& 0x7F) <<< 8) ||| b3 : Nat) : Int)
               else ((((b2 &&& 0x7F) <<< 8) ||| b3 : Nat) : Int)) := by
    rw [h, if_neg (not_not.mpr hck)]
    simp only [Option.map_some', ht]
  refine ⟨h1, ?_, testBit7_byte b2 hb2, ?_⟩
  · rw [and_0x7F, word_of_bytes _ _ hb3]
  · intro e2 e3
    rw [h1]
    subst e2 e3
    decide

set_option maxRecDepth 100000 in
/-- C3 at the frame 0, 200, 0x80, 0x32 with checksum 122: the reading is -5.0 degrees. -/
theorem do_read_data_temperature_witness :
    (isr_run (sensor_frame [0, 200, 0x80, 0x32, 122]) (arm init)).map State.data =
        some [0, 200, 0x80, 0x32, 122] ∧
    (do_read_data (sensor_frame [0, 200, 0x80, 0x32, 122]) 1 (arm init)).map
        (fun (r : Int × State) => (r.1, r.2.s.t)) = some ((0 : Int), (-50 : Int)) :=
  ⟨by decide,
    (do_read_data_temperature (sensor_frame [0, 200, 0x80, 0x32, 122]) 1 (arm init)
      0 200 0x80 0x32 122 (by decide) (by decide) (by decide) (by decide) (by decide)).2.2.2
      rfl rfl⟩

/-- C4: for a checksum-valid frame the decoded humidity is the big-endian word
`b0 * 256 + b1` read as a signed 16-bit number: it lies in `-32768..32767`, equals
`b0 * 256 + b1` when `b0 < 0x80` and `b0 * 256 + b1 - 65536` otherwise. -/
theorem do_read_data_humidity (evs : List (Int × Int)) (w : Int) (g : State)
    (b0 b1 b2 b3 b4 : Nat) (hw : w ≠ 0)
    (hd : (isr_run evs g).map State.data = some [b0, b1, b2, b3, b4])
    (hb0 : b0 < 256) (hb1 : b1 < 256) (hck : (b0 + b1 + b2 + b3) % 256 = b4) :
    ∃ rh : Int,
      (do_read_data evs w g).map (fun (r : Int × State) => (r.1, r.2.s.rh)) =
        some ((0 : Int), rh) ∧
      -32768 ≤ rh ∧ rh ≤ 32767 ∧
      (b0 < 0x80 → rh = (b0 : Int) * 256 + b1) ∧
      (0x80 ≤ b0 → rh = (b0 : Int) * 256 + b1 - 65536) := by
  obtain ⟨g1, -, -, h⟩ := do_read_data_frame hw hd
  refine ⟨toInt16 ((b0 * 256 + b1 : Nat) : Int), ?_, ?_, ?_, ?_, ?_⟩
  · rw [h, if_neg (not_not.mpr hck)]
    simp only [Option.map_some', decode_frame_rh b0 b1 b2 b3 b4 hb1]
  all_goals
    unfold toInt16
    push_cast
    omega

set_option maxRecDepth 100000 in
/-- C4 at the frame 0xFF, 0xF4, 1, 4 with checksum 248: the word 0xFFF4 is read
as -12. -/
theorem do_read_data_humidity_witness :
    (isr_run (sensor_frame [0xFF, 0xF4, 1, 4, 248]) (arm init)).map State.data =
        some [0xFF, 0xF4, 1, 4, 248] ∧
    ∃ rh : Int, (do_read_data (sensor_frame [0xFF, 0xF4, 1, 4, 248]) 1 (arm init)).map
        (fun (r : Int × State) => (r.1, r.2.s.rh)) = some ((0 : Int), rh) ∧
      rh = 0xFF * 256 + 0xF4 - 65536 := by
  refine ⟨by decide, ?_⟩
  obtain ⟨rh, h1, -, -, -, h5⟩ :=
    do_read_data_humidity (sensor_frame [0xFF, 0xF4, 1, 4, 248]) 1 (arm init)
      0xFF 0xF4 1 4 248 (by decide) (by decide) (by decide) (by decide) (by decide)
  exact ⟨rh, h1, by simpa using h5 (by decide)⟩

/-! ## The edge decoder -/

theorem testBit_or_bit (x b k : Nat) (hk : k < 8) :
    ((x ||| 1 <<< b) % 256).testBit k = (x.testBit k || decide (b = k)) := by
  have h256 : (256 : Nat) = 2 ^ 8 := by norm_num
  rw [h256, Nat.testBit_mod_two_pow, Nat.testBit_or, Nat.one_shiftLeft, Nat.testBit_two_pow]
  simp [hk]

theorem getD_set_byte (l : List Nat) (c n v : Nat) (hc : c < l.length) :
    (l.set c v).getD n 0 = if n = c then v else l.getD n 0 := by
  by_cases h : n = c
  · subst h
    simp [List.getD_eq_getElem?_getD, hc]
  · have h2 : c ≠ n := fun e => h e.symm
    simp [List.getD_eq_getElem?_getD, h, List.getElem?_set_ne h2]

theorem frame_bit_set (data : List Nat) (i j : Nat) (hlen : data.length = 5) (hi : i < 40) :
    frame_bit (data.set (i / 8) ((data.getD (i / 8) 0 ||| 1 <<< (7 - i % 8)) % 256)) j =
      (frame_bit data j || decide (j = i)) := by
  unfold frame_bit
  rw [getD_set_byte _ _ _ _ (by omega)]
  by_cases h : j / 8 = i / 8
  · rw [if_pos h, testBit_or_bit _ _ _ (by omega), h]
    congr 1
    have : (7 - i % 8 = 7 - j % 8) ↔ j = i := by omega
    simp [this]
  · rw [if_neg h]
    have : ¬ j = i := fun e => h (by rw [e])
    simp [this]

theorem pulses_append (a b : List (Int × Int)) : pulses (a ++ b) = pulses a ++ pulses b := by
  induction a with
  | nil => rfl
  | cons p a ih => simp [pulses, ih]

theorem isr_run_append (l1 l2 : List (Int × Int)) (g : State) :
    isr_run (l1 ++ l2) g = (isr_run l1 g).bind (isr_run l2) := by
  induction l1 generalizing g with
  | nil => simp [isr_run]
  | cons ev l1 ih =>
    simp only [List.cons_append, isr_run]
    cases h : read_isr ev.1 ev.2 g with
    | none => simp
    | some g1 => simp [ih]

theorem read_isr_stop (now level : Int) (g : State) (h : g.read_req = .READ_STOP) :
    read_isr now level g = some { g with old := now } := by
  simp [read_isr, h]

theorem isr_run_stop (evs : List (Int × Int)) (g : State) (h : g.read_req = .READ_STOP) :
    ∃ g1, isr_run evs g = some g1 ∧ g1.read_req = .READ_STOP := by
  induction evs generalizing g with
  | nil => exact ⟨g, rfl, h⟩
  | cons ev evs ih =>
    simp only [isr_run, read_isr_stop _ _ g h, Option.some_bind]
    exact ih _ h

theorem isr_run_preamble (t0 t1 t2 : Int) (g : State) :
    isr_run [(t0, 0), (t1, 1), (t2, 0)] (arm g) =
      some { g with read_req := .READ_BIT_HIGH, bit_count := 7, char_count := 0,
                    data := List.replicate 5 0, old := t2 } := by
  simp [isr_run, read_isr, arm]

theorem isr_run_pulse (r f : Int) (g : State) (h : g.read_req = .READ_BIT_HIGH)
    (hc0 : 0 ≤ g.char_count) (hc4 : g.char_count ≤ 4) (hb0 : 0 ≤ g.bit_count)
    (hb7 : g.bit_count ≤ 7) :
    isr_run [(r, 1)] g = some { g with read_req := .READ_BIT_LOW, old := r } ∧
    isr_run [(r, 1), (f, 0)] g = some
      { g with
        read_req := if g.bit_count = 0 ∧ g.char_count = 4 then .READ_STOP else .READ_BIT_HIGH
        old := f
        ulen := toInt32 (ktime_us_delta f r)
        data := if toInt32 (ktime_us_delta f r) > 40 then
            g.data.set g.char_count.toNat
              ((g.data.getD g.char_count.toNat 0 ||| (1 <<< g.bit_count.toNat)) % 256)
          else g.data
        bit_count := if g.bit_count = 0 then 7 else g.bit_count - 1
        char_count := if g.bit_count = 0 then g.char_count + 1 else g.char_count } := by
  constructor
  · simp [isr_run, read_isr, h]
  · have hd : 0 ≤ g.char_count ∧ g.char_count < 5 ∧ 0 ≤ g.bit_count ∧ g.bit_count < 31 :=
      ⟨hc0, by omega, hb0, by omega⟩
    have e5 : (g.char_count + 1 = 5) ↔ g.char_count = 4 := by omega
    have n5 : ¬ g.char_count = 5 := by omega
    have eb : (g.bit_count < 1) ↔ g.bit_count = 0 := by omega
    by_cases hl : toInt32 (ktime_us_delta f r) > 40 <;>
    by_cases hz : g.bit_count = 0 <;>
    by_cases h4 : g.char_count = 4 <;>
    simp [isr_run, read_isr, h, data_or_bit, next_bit, hd, hl, hz, h4, e5, n5, eb]

theorem isr_run_pulses (ps : List (Int × Int)) (g0 : State)
    (hreq : g0.read_req = .READ_BIT_HIGH) (hbit : g0.bit_count = 7) (hchar : g0.char_count = 0)
    (hdata : g0.data = List.replicate 5 0) (hlen : ps.length ≤ 40) :
    ∃ g1, isr_run (pulses ps) g0 = some g1 ∧
      g1.read_req = (if ps.length = 40 then .READ_STOP else .READ_BIT_HIGH) ∧
      g1.data.length = 5 ∧
      g1.char_count = ((ps.length / 8 : Nat) : Int) ∧
      g1.bit_count = ((7 - ps.length % 8 : Nat) : Int) ∧
      ∀ j, j < 40 → frame_bit g1.data j =
        (decide (j < ps.length) && long_pulse (ps.getD j (0, 0))) := by
  induction ps using List.reverseRecOn with
  | nil =>
    refine ⟨g0, rfl, by simpa using hreq, by simp [hdata], by simpa using hchar,
      by simpa using hbit, ?_⟩
    intro j hj
    have hz : (List.replicate 5 (0 : Nat)).getD (j / 8) 0 = 0 := by
      rw [List.getD_eq_getElem?_getD, List.getElem?_replicate]
      split <;> rfl
    unfold frame_bit
    rw [hdata, hz]
    simp
  | append_singleton l a ih =>
    have hl : l.length ≤ 39 := by simp at hlen; omega
    obtain ⟨g1, hrun, hr, hdl, hc, hb, hbits⟩ := ih (by omega)
    have hr1 : g1.read_req = .READ_BIT_HIGH := by
      rw [hr, if_neg (by omega)]
    obtain ⟨-, hstep⟩ := isr_run_pulse a.1 a.2 g1 hr1 (by omega) (by omega) (by omega) (by omega)
    have hrun2 : isr_run (pulses (l ++ [a])) g0 = isr_run [(a.1, 1), (a.2, 0)] g1 := by
      rw [pulses_append, isr_run_append, hrun]
      rfl
    rw [hrun2, hstep]
    refine ⟨_, rfl, ?_, ?_, ?_, ?_, ?_⟩
    · simp only [List.length_append, List.length_singleton]
      by_cases h40 : l.length + 1 = 40
      · rw [if_pos h40, if_pos]
        omega
      · rw [if_neg h40, if_neg]
        omega
    · dsimp only
      split <;> simp [hdl]
    · simp only [List.length_append, List.length_singleton]
      split <;> omega
    · simp only [List.length_append, List.length_singleton]
      split <;> omega
    · intro j hj
      simp only [List.length_append, List.length_singleton]
      have hcn : g1.char_count.toNat = l.length / 8 := by omega
      have hbn : g1.bit_count.toNat = 7 - l.length % 8 := by omega
      have hget : (l ++ [a]).getD j (0, 0) = if j < l.length then l.getD j (0, 0)
          else if j = l.length then a else (0, 0) := by
        by_cases h1 : j < l.length
        · rw [if_pos h1, List.getD_append _ _ _ _ h1]
        · rw [if_neg h1, List.getD_append_right _ _ _ _ (by omega)]
          by_cases h2 : j = l.length
          · simp [h2]
          · rw [if_neg h2]
            obtain ⟨m, hm⟩ : ∃ m, j - l.length = m + 1 := ⟨j - l.length - 1, by omega⟩
            rw [hm]
            simp
      have hold := hbits j hj
      by_cases hlong : toInt32 (ktime_us_delta a.2 a.1) > 40
      · simp only [hlong, if_true, hcn, hbn]
        rw [frame_bit_set _ _ _ hdl (by omega), hold, hget]
        by_cases h1 : j < l.length
        · have : j < l.length + 1 := by omega
          have h3 : ¬ j = l.length := by omega
          simp [h1, this, h3]
        · by_cases h2 : j = l.length
          · subst h2
            simp [long_pulse, hlong]
          · have : ¬ j < l.length + 1 := by omega
            simp [h1, h2, this]
      · simp only [hlong, if_false]
        rw [hold, hget]
        by_cases h1 : j < l.length
        · have : j < l.length + 1 := by omega
          simp [h1, this]
        · by_cases h2 : j = l.length
          · subst h2
            simp [long_pulse, hlong]
          · have : ¬ j < l.length + 1 := by omega
            simp [h1, h2, this]

theorem toInt32_of_range (x : Int) (h1 : -2147483648 ≤ x) (h2 : x < 2147483648) :
    toInt32 x = x := by
  unfold toInt32
  omega

theorem isr_run_take_ne_stop (evs : List (Int × Int)) (g gm : State)
    (h : isr_run evs g = some gm) (hm : gm.read_req ≠ .READ_STOP) (k : Nat) :
    ∃ gk, isr_run (evs.take k) g = some gk ∧ gk.read_req ≠ .READ_STOP := by
  have hsplit := isr_run_append (evs.take k) (evs.drop k) g
  rw [List.take_append_drop, h] at hsplit
  cases hk : isr_run (evs.take k) g with
  | none => rw [hk] at hsplit; simp at hsplit
  | some gk =>
    refine ⟨gk, rfl, fun hs => ?_⟩
    obtain ⟨g2, h2, h3⟩ := isr_run_stop (evs.drop k) gk hs
    rw [hk, Option.some_bind, h2] at hsplit
    exact hm (by rw [Option.some.inj hsplit]; exact h3)

/-- C5 (amended): after `arm`, whatever the cursor and the buffer held, a
well-formed transaction (low, high, low, then 40 pulses) is handled without
undefined behaviour, the decoder is in `READ_STOP` after the last falling edge and
in no proper initial segment of the edges, and bit `7 - i mod 8` of byte `i div 8`
is set exactly when the width of pulse `i` in whole microseconds, converted to the
32-bit `int` `_ulen`, exceeds 40.  For widths within the range of `int` this is
`ktime_us_delta fall rise > 40`; a 22 us pulse gives 0 and a 70 us pulse gives 1. -/
theorem read_isr_transaction (g : State) (t0 t1 t2 : Int) (ps : List (Int × Int))
    (hlen : ps.length = 40) :
    (∀ k, k < (transaction t0 t1 t2 ps).length →
      ∃ gk, isr_run ((transaction t0 t1 t2 ps).take k) (arm g) = some gk ∧
        gk.read_req ≠ .READ_STOP) ∧
    ∃ g1, isr_run (transaction t0 t1 t2 ps) (arm g) = some g1 ∧ g1.read_req = .READ_STOP ∧
      g1.data.length = 5 ∧
      ∀ i, i < 40 →
        ((g1.data.getD (i / 8) 0).testBit (7 - i % 8) = true ↔
          toInt32 (ktime_us_delta (ps.getD i (0, 0)).2 (ps.getD i (0, 0)).1) > 40) ∧
        (-2147483648 ≤ ktime_us_delta (ps.getD i (0, 0)).2 (ps.getD i (0, 0)).1 →
          ktime_us_delta (ps.getD i (0, 0)).2 (ps.getD i (0, 0)).1 < 2147483648 →
          ((g1.data.getD (i / 8) 0).testBit (7 - i % 8) = true ↔
            ktime_us_delta (ps.getD i (0, 0)).2 (ps.getD i (0, 0)).1 > 40)) ∧
        ((ps.getD i (0, 0)).2 - (ps.getD i (0, 0)).1 = 22000 →
          (g1.data.getD (i / 8) 0).testBit (7 - i % 8) = false) ∧
        ((ps.getD i (0, 0)).2 - (ps.getD i (0, 0)).1 = 70000 →
          (g1.data.getD (i / 8) 0).testBit (7 - i % 8) = true) := by
  have hpre := isr_run_preamble t0 t1 t2 g
  have hfull : ∀ qs : List (Int × Int), isr_run (transaction t0 t1 t2 qs) (arm g) =
      isr_run (pulses qs)
        { g with read_req := .READ_BIT_HIGH, bit_count := 7, char_count := 0,
                 data := List.replicate 5 0, old := t2 } := by
    intro qs
    have := isr_run_append [(t0, 0), (t1, 1), (t2, 0)] (pulses qs) (arm g)
    rw [hpre] at this
    exact this
  constructor
  · intro k hk
    have hne : ps ≠ [] := by
      intro h
      rw [h] at hlen
      simp at hlen
    obtain ⟨l, a, hla⟩ : ∃ l a, ps = l ++ [a] :=
      ⟨ps.dropLast, ps.getLast hne, (List.dropLast_append_getLast hne).symm⟩
    have hl : l.length = 39 := by
      rw [hla] at hlen
      simp at hlen
      omega
    obtain ⟨g39, hrun, hr, -, hc, hb, -⟩ := isr_run_pulses l
      { g with read_req := .READ_BIT_HIGH, bit_count := 7, char_count := 0,
               data := List.replicate 5 0, old := t2 } rfl rfl rfl rfl (by omega)
    rw [if_neg (by omega)] at hr
    obtain ⟨hrise, -⟩ := isr_run_pulse a.1 a.2 g39 hr (by omega) (by omega) (by omega) (by omega)
    have hev : transaction t0 t1 t2 ps =
        transaction t0 t1 t2 l ++ [(a.1, 1)] ++ [(a.2, 0)] := by
      rw [hla]
      simp [transaction, pulses_append, pulses]
    have h82 : isr_run (transaction t0 t1 t2 l ++ [(a.1, 1)]) (arm g) =
        some { g39 with read_req := .READ_BIT_LOW, old := a.1 } := by
      rw [isr_run_append, hfull, hrun, Option.some_bind, hrise]
    have hk82 : k ≤ (transaction t0 t1 t2 l ++ [(a.1, 1)]).length := by
      rw [hev] at hk
      simp at hk ⊢
      omega
    obtain ⟨gk, h1, h2⟩ := isr_run_take_ne_stop _ _ _ h82 (by simp) k
    refine ⟨gk, ?_, h2⟩
    rw [hev, List.take_append_of_le_length hk82]
    exact h1
  · obtain ⟨g1, hrun, hr, hdl, -, -, hbits⟩ := isr_run_pulses ps
      { g with read_req := .READ_BIT_HIGH, bit_count := 7, char_count := 0,
               data := List.replicate 5 0, old := t2 } rfl rfl rfl rfl (by omega)
    rw [if_pos hlen] at hr
    refine ⟨g1, by rw [hfull, hrun], hr, hdl, ?_⟩
    intro i hi
    have hb := hbits i hi
    simp only [frame_bit, long_pulse, hlen, hi, decide_True, Bool.true_and] at hb
    have hiff : (g1.data.getD (i / 8) 0).testBit (7 - i % 8) = true ↔
        toInt32 (ktime_us_delta (ps.getD i (0, 0)).2 (ps.getD i (0, 0)).1) > 40 := by
      rw [hb]
      simp
    refine ⟨hiff, ?_, ?_, ?_⟩
    · intro h1 h2
      rw [hiff, toInt32_of_range _ h1 h2]
    · intro h22
      have : ¬ toInt32 (ktime_us_delta (ps.getD i (0, 0)).2 (ps.getD i (0, 0)).1) > 40 := by
        unfold ktime_us_delta
        rw [h22]
        decide
      rw [← hiff] at this
      simpa using this
    · intro h70
      rw [hiff]
      unfold ktime_us_delta
      rw [h70]
      decide

set_option maxRecDepth 100000 in
/-- C5 at the edges of the frame 1, 244, 1, 4, 250 as the sensor sends it: the
decoder stops, pulse 6 (26 us) leaves bit 1 of byte 0 clear and pulse 7 (70 us)
sets bit 0 of byte 0. -/
theorem read_isr_transaction_witness :
    (sensor_pulses 210000 (frame_bits [1, 244, 1, 4, 250])).length = 40 ∧
    ∃ g1, isr_run (sensor_frame [1, 244, 1, 4, 250]) (arm init) = some g1 ∧
      g1.read_req = .READ_STOP ∧ g1.data.length = 5 ∧
      (g1.data.getD (6 / 8) 0).testBit (7 - 6 % 8) = false ∧
      (g1.data.getD (7 / 8) 0).testBit (7 - 7 % 8) = true := by
  refine ⟨by decide, ?_⟩
  obtain ⟨g1, h1, h2, h3, h4⟩ :=
    (read_isr_transaction init 0 80000 160000
      (sensor_pulses 210000 (frame_bits [1, 244, 1, 4, 250])) (by decide)).2
  refine ⟨g1, h1, h2, h3, ?_, (h4 7 (by decide)).2.2.2 (by decide)⟩
  have h6 := (h4 6 (by decide)).1
  have h7 : ¬ toInt32 (ktime_us_delta
      ((sensor_pulses 210000 (frame_bits [1, 244, 1, 4, 250])).getD 6 (0, 0)).2
      ((sensor_pulses 210000 (frame_bits [1, 244, 1, 4, 250])).getD 6 (0, 0)).1) > 40 := by
    decide
  rw [← h6] at h7
  simpa using h7

set_option maxRecDepth 100000 in
/-- C5 as stated fails: the first pulse of `long_first` is far longer than 40 us,
yet after the complete transaction bit 7 of byte 0 is clear, because the width
2147483648 us is stored in `_ulen` as -2147483648. -/
theorem read_isr_transaction_counterexample :
    long_first.length = 40 ∧
    (long_first.getD 0 (0, 0)).2 - (long_first.getD 0 (0, 0)).1 > 40 * 1000 ∧
    ktime_us_delta (long_first.getD 0 (0, 0)).2 (long_first.getD 0 (0, 0)).1 > 40 ∧
    (isr_run (transaction 0 80000 160000 long_first) (arm init)).map
      (fun g => (g.read_req, (g.data.getD (0 / 8) 0).testBit (7 - 0 % 8))) =
        some (.READ_STOP, false) := by
  decide

/-! ## Invariants of the interrupt handler -/

theorem same_thread_refl (g : State) : same_thread g g := ⟨rfl, rfl, rfl, rfl, rfl, rfl, rfl⟩

theorem same_thread_trans {a b c : State} (h1 : same_thread a b) (h2 : same_thread b c) :
    same_thread a c := by
  obtain ⟨a1, a2, a3, a4, a5, a6, a7⟩ := h1
  obtain ⟨b1, b2, b3, b4, b5, b6, b7⟩ := h2
  exact ⟨b1.trans a1, b2.trans a2, b3.trans a3, b4.trans a4, b5.trans a5, b6.trans a6,
    b7.trans a7⟩

theorem read_isr_same_thread (now level : Int) (g g1 : State)
    (h : read_isr now level g = some g1) : same_thread g g1 := by
  unfold read_isr at h
  cases hr : g.read_req <;> rw [hr] at h <;> simp only [Option.map_some', Option.some.injEq] at h
  case READ_BIT_LOW =>
    by_cases hl : level = 0
    · rw [if_pos hl] at h
      by_cases hu : toInt32 (ktime_us_delta now g.old) > 40
      · simp only [hu, if_true, data_or_bit] at h
        split at h
        · simp only [Option.map_some', Option.some.injEq] at h
          subst h
          unfold next_bit
          dsimp only
          split <;> split <;> exact ⟨rfl, rfl, rfl, rfl, rfl, rfl, rfl⟩
        · simp at h
      · simp only [hu, if_false, Option.map_some', Option.some.injEq] at h
        subst h
        unfold next_bit
        dsimp only
        split <;> split <;> exact ⟨rfl, rfl, rfl, rfl, rfl, rfl, rfl⟩
    · rw [if_neg hl] at h
      simp only [Option.map_some', Option.some.injEq] at h
      subst h
      exact ⟨rfl, rfl, rfl, rfl, rfl, rfl, rfl⟩
  all_goals
    subst h
    first
      | exact ⟨rfl, rfl, rfl, rfl, rfl, rfl, rfl⟩
      | (split <;> exact ⟨rfl, rfl, rfl, rfl, rfl, rfl, rfl⟩)

theorem isr_run_same_thread (evs : List (Int × Int)) (g g1 : State)
    (h : isr_run evs g = some g1) : same_thread g g1 := by
  induction evs generalizing g with
  | nil =>
    simp only [isr_run, Option.some.injEq] at h
    subst h
    exact same_thread_refl g
  | cons ev evs ih =>
    simp only [isr_run] at h
    cases h1 : read_isr ev.1 ev.2 g with
    | none => rw [h1] at h; simp at h
    | some g2 =>
      rw [h1, Option.some_bind] at h
      exact same_thread_trans (read_isr_same_thread _ _ _ _ h1) (ih g2 h)

theorem read_isr_cursor_valid (now level : Int) (g : State) (hv : cursor_valid g) :
    ∃ g1, read_isr now level g = some g1 ∧ cursor_valid g1 := by
  unfold read_isr
  cases hr : g.read_req
  case READ_BIT_LOW =>
    obtain ⟨c0, c4, b0, b7⟩ := hv (Or.inr hr)
    by_cases hl : level = 0
    · have hd : 0 ≤ g.char_count ∧ g.char_count < 5 ∧ 0 ≤ g.bit_count ∧ g.bit_count < 31 :=
        ⟨c0, by omega, b0, by omega⟩
      have e5 : (g.char_count + 1 = 5) ↔ g.char_count = 4 := by omega
      have n5 : ¬ g.char_count = 5 := by omega
      have eb : (g.bit_count < 1) ↔ g.bit_count = 0 := by omega
      by_cases hu : toInt32 (ktime_us_delta now g.old) > 40 <;>
      by_cases hz : g.bit_count = 0 <;>
      by_cases h4 : g.char_count = 4 <;>
      simp [hl, hu, hz, h4, data_or_bit, next_bit, hd, e5, n5, eb, cursor_valid] <;> omega
    · simp only [hl, if_false, Option.map_some']
      refine ⟨_, rfl, ?_⟩
      intro _
      exact ⟨c0, c4, b0, b7⟩
  case READ_BIT_HIGH =>
    obtain ⟨c0, c4, b0, b7⟩ := hv (Or.inl hr)
    refine ⟨_, rfl, ?_⟩
    split <;> exact fun _ => ⟨c0, c4, b0, b7⟩
  case READ_BIT_START =>
    refine ⟨_, rfl, ?_⟩
    split
    · intro _
      simp
    · intro h
      simp [hr] at h
  all_goals
    refine ⟨_, rfl, ?_⟩
    first
      | (split <;> intro h <;> simp [hr] at h)
      | (intro h; simp [hr] at h)

theorem isr_run_cursor_valid (evs : List (Int × Int)) (g : State) (hv : cursor_valid g) :
    ∃ g1, isr_run evs g = some g1 ∧ cursor_valid g1 ∧ same_thread g g1 := by
  induction evs generalizing g with
  | nil => exact ⟨g, rfl, hv, same_thread_refl g⟩
  | cons ev evs ih =>
    obtain ⟨g1, h1, v1⟩ := read_isr_cursor_valid ev.1 ev.2 g hv
    obtain ⟨g2, h2, v2, s2⟩ := ih g1 v1
    refine ⟨g2, by simp [isr_run, h1, h2], v2, ?_⟩
    exact same_thread_trans (read_isr_same_thread _ _ _ _ h1) s2

/-! ## The polling loop -/

theorem do_read_data_same_thread (evs : List (Int × Int)) (w : Int) (g : State)
    (d : Int × State) (h : do_read_data evs w g = some d) :
    d.2.sns = g.sns ∧ d.2.reads0 = g.reads0 ∧ d.2.reads1 = g.reads1 ∧
      d.2.read_delay = g.read_delay ∧ d.2.local_delay = g.local_delay ∧ d.2.sp = g.sp ∧
      (d.1 ≠ 0 → d.2.s = g.s) := by
  unfold do_read_data at h
  cases h1 : isr_run evs g with
  | none => rw [h1] at h; simp at h
  | some g1 =>
    obtain ⟨a1, a2, a3, a4, a5, a6, a7⟩ := isr_run_same_thread evs g g1 h1
    rw [h1] at h
    simp only [Option.map_some', Option.some.injEq] at h
    subst h
    split
    · exact ⟨a1, a2, a3, a4, a5, a7, fun _ => a6⟩
    · split
      · exact ⟨a1, a2, a3, a4, a5, a7, fun _ => a6⟩
      · exact ⟨a1, a2, a3, a4, a5, a7, fun h => absurd rfl h⟩

theorem start_read_same_thread (a b : Int) (g : State) :
    same_thread g (start_read a b g).2 := by
  unfold start_read arm
  split
  · exact same_thread_refl g
  · dsimp only
    split <;> exact ⟨rfl, rfl, rfl, rfl, rfl, rfl, rfl⟩

theorem decoded_some (e : Env) (g : State) (r : st_inf) (h : decoded e g = some r) :
    ∃ d : State, read_thread_iter e g = some (filter d) ∧ d.s = r ∧ d.sns = g.sns ∧
      d.reads1 = g.reads1 ∧ d.sp = g.sp ∧ d.read_delay = g.read_delay ∧
      d.reads0 = (g.reads0 + 1) % 4294967296 ∧ d.local_delay = g.read_delay ∧
      g.local_delay = 0 := by
  unfold decoded at h
  by_cases h0 : g.local_delay ≠ 0
  · rw [if_pos h0] at h
    simp at h
  · rw [if_neg h0] at h
    dsimp only at h
    by_cases hs : (start_read e.gpio_out e.gpio_in (begin_read g)).1 ≠ 0
    · rw [if_pos hs] at h
      simp at h
    · rw [if_neg hs] at h
      cases hd : do_read_data e.events e.wait (start_read e.gpio_out e.gpio_in (begin_read g)).2 with
      | none => rw [hd] at h; simp at h
      | some d =>
        rw [hd, Option.some_bind] at h
        by_cases hd1 : d.1 ≠ 0
        · rw [if_pos hd1] at h
          simp at h
        · rw [if_neg hd1] at h
          obtain ⟨a1, a2, a3, a4, a5, a6, -⟩ := do_read_data_same_thread _ _ _ _ hd
          obtain ⟨b1, b2, b3, b4, b5, -, b7⟩ :=
            start_read_same_thread e.gpio_out e.gpio_in (begin_read g)
          refine ⟨d.2, ?_, Option.some.inj h, a1.trans b1, a3.trans b3, a6.trans b7,
            a4.trans b4, a2.trans b2, a5.trans b5, not_not.mp h0⟩
          unfold read_thread_iter
          rw [if_neg h0]
          dsimp only
          rw [if_neg hs, hd, Option.map_some', if_neg hd1]

theorem decoded_none (e : Env) (g g1 : State) (h : decoded e g = none)
    (hr : read_thread_iter e g = some g1) :
    g1.sns = g.sns ∧ g1.reads1 = g.reads1 ∧ g1.sp = g.sp ∧ g1.read_delay = g.read_delay := by
  unfold decoded at h
  unfold read_thread_iter at hr
  by_cases h0 : g.local_delay ≠ 0
  · rw [if_pos h0] at hr
    obtain ⟨a1, -, a3, a4, -, -, a7⟩ := isr_run_same_thread _ _ _ hr
    exact ⟨a1, a3, a7, a4⟩
  · rw [if_neg h0] at h hr
    dsimp only at h hr
    obtain ⟨b1, -, b3, b4, -, -, b7⟩ :=
      start_read_same_thread e.gpio_out e.gpio_in (begin_read g)
    by_cases hs : (start_read e.gpio_out e.gpio_in (begin_read g)).1 ≠ 0
    · rw [if_pos hs] at hr
      simp only [Option.some.injEq] at hr
      subst hr
      exact ⟨b1, b3, b7, b4⟩
    · rw [if_neg hs] at h hr
      cases hd : do_read_data e.events e.wait (start_read e.gpio_out e.gpio_in (begin_read g)).2 with
      | none => rw [hd] at hr; simp at hr
      | some d =>
        rw [hd] at h hr
        obtain ⟨a1, -, a3, a4, -, a6, -⟩ := do_read_data_same_thread _ _ _ _ hd
        by_cases hd1 : d.1 ≠ 0
        · rw [Option.map_some', if_pos hd1] at hr
          simp only [Option.some.injEq] at hr
          subst hr
          exact ⟨a1.trans b1, a3.trans b3, a6.trans b7, a4.trans b4⟩
        · rw [Option.some_bind, if_neg hd1] at h
          simp at h

theorem decoded_of_frame (e : Env) (g : State) (b0 b1 b2 b3 b4 : Nat)
    (h0 : g.local_delay = 0) (ho : e.gpio_out = 0) (hi : e.gpio_in = 0) (hw : e.wait ≠ 0)
    (hd : (isr_run e.events (arm (begin_read g))).map State.data = some [b0, b1, b2, b3, b4])
    (hck : (b0 + b1 + b2 + b3) % 256 = b4) :
    decoded e g = some (decode [b0, b1, b2, b3, b4]) := by
  obtain ⟨g1, -, -, h⟩ := do_read_data_frame hw hd
  have hs : start_read e.gpio_out e.gpio_in (begin_read g) = (0, arm (begin_read g)) := by
    simp [start_read, ho, hi]
  unfold decoded
  rw [if_neg (not_not.mpr h0)]
  dsimp only
  rw [hs]
  dsimp only
  rw [if_neg (not_not.mpr rfl), h, if_neg (not_not.mpr hck)]
  simp

theorem filter_first (g : State) (h : g.reads1 = 0) :
    filter g = { g with local_delay := SHORT_DELAY, reads1 := 1, sp := g.s } := by
  simp [filter, h]

theorem filter_cond (g : State) :
    (g.s.t - g.sp.t > 50 ∨ g.s.t - g.sp.t < -50 ∨ g.s.rh - g.sp.rh > 100 ∨
      g.s.rh - g.sp.rh < -100) ↔ (50 < |g.s.t - g.sp.t| ∨ 100 < |g.s.rh - g.sp.rh|) := by
  rw [lt_abs, lt_abs]
  constructor
  · rintro (h | h | h | h)
    · exact Or.inl (Or.inl h)
    · exact Or.inl (Or.inr (by omega))
    · exact Or.inr (Or.inl h)
    · exact Or.inr (Or.inr (by omega))
  · rintro ((h | h) | (h | h))
    · exact Or.inl h
    · exact Or.inr (Or.inl (by omega))
    · exact Or.inr (Or.inr (Or.inl h))
    · exact Or.inr (Or.inr (Or.inr (by omega)))

theorem filter_reject (g : State) (h : g.reads1 ≠ 0)
    (hc : 50 < |g.s.t - g.sp.t| ∨ 100 < |g.s.rh - g.sp.rh|) :
    filter g = { g with local_delay := SHORT_DELAY, sp := g.s } := by
  have hc2 := (filter_cond g).mpr hc
  unfold filter
  rw [if_neg h, if_pos hc2]

theorem filter_accept (g : State) (h : g.reads1 ≠ 0)
    (hc : ¬ (50 < |g.s.t - g.sp.t| ∨ 100 < |g.s.rh - g.sp.rh|)) :
    filter g = { g with sns := g.s, reads1 := (g.reads1 + 1) % 4294967296, sp := g.s } := by
  have hc2 := mt (filter_cond g).mp hc
  unfold filter
  rw [if_neg h, if_neg hc2]

theorem quiet_run (mid : List Env) (g g1 : State) (hq : quiet mid g = true)
    (hr : run mid g = some g1) :
    g1.sns = g.sns ∧ g1.reads1 = g.reads1 ∧ g1.sp = g.sp ∧ g1.read_delay = g.read_delay := by
  induction mid generalizing g with
  | nil =>
    simp only [run, Option.some.injEq] at hr
    subst hr
    exact ⟨rfl, rfl, rfl, rfl⟩
  | cons e es ih =>
    simp only [run] at hr
    cases h1 : read_thread_iter e g with
    | none => rw [h1] at hr; simp at hr
    | some g2 =>
      rw [h1, Option.some_bind] at hr
      simp only [quiet, h1, Bool.and_eq_true, Option.isNone_iff_eq_none] at hq
      obtain ⟨a1, a2, a3, a4⟩ := decoded_none e g g2 hq.1 h1
      obtain ⟨b1, b2, b3, b4⟩ := ih g2 hq.2 hr
      exact ⟨b1.trans a1, b2.trans a2, b3.trans a3, b4.trans a4⟩

/-! ## Every iteration returns -/

theorem cursor_valid_congr (g g1 : State) (h1 : g1.read_req = g.read_req)
    (h2 : g1.char_count = g.char_count) (h3 : g1.bit_count = g.bit_count)
    (hv : cursor_valid g) : cursor_valid g1 := by
  unfold cursor_valid at hv ⊢
  rw [h1, h2, h3]
  exact hv

theorem filter_decoder (g : State) :
    (filter g).read_req = g.read_req ∧ (filter g).char_count = g.char_count ∧
      (filter g).bit_count = g.bit_count ∧ (filter g).reads0 = g.reads0 ∧
      (filter g).read_delay = g.read_delay := by
  unfold filter
  dsimp only
  split
  · exact ⟨rfl, rfl, rfl, rfl, rfl⟩
  · split <;> exact ⟨rfl, rfl, rfl, rfl, rfl⟩

theorem read_thread_iter_total (e : Env) (g : State) (hv : cursor_valid g) :
    ∃ g1, read_thread_iter e g = some g1 ∧ cursor_valid g1 ∧
      g1.reads0 = (if g.local_delay = 0 then (g.reads0 + 1) % 4294967296 else g.reads0) ∧
      g1.read_delay = g.read_delay := by
  unfold read_thread_iter
  by_cases h0 : g.local_delay ≠ 0
  · rw [if_pos h0, if_neg h0]
    obtain ⟨g1, h1, v1, -, a2, -, a4, -⟩ := isr_run_cursor_valid e.events
      { g with local_delay := g.local_delay - 1 } (cursor_valid_congr g _ rfl rfl rfl hv)
    exact ⟨g1, h1, v1, a2, a4⟩
  · rw [if_neg h0, if_pos (not_not.mp h0)]
    dsimp only
    have hvs : cursor_valid (start_read e.gpio_out e.gpio_in (begin_read g)).2 := by
      unfold start_read arm
      split
      · exact cursor_valid_congr g _ rfl rfl rfl hv
      · dsimp only
        split <;> (intro h; simp at h)
    obtain ⟨-, b2, -, b4, -, -, -⟩ := start_read_same_thread e.gpio_out e.gpio_in (begin_read g)
    by_cases hs : (start_read e.gpio_out e.gpio_in (begin_read g)).1 ≠ 0
    · rw [if_pos hs]
      exact ⟨_, rfl, hvs, b2, b4⟩
    · rw [if_neg hs]
      obtain ⟨g1, h1, v1, -, a2, -, a4, -⟩ := isr_run_cursor_valid e.events _ hvs
      simp only [do_read_data, h1, Option.map_some']
      refine ⟨_, rfl, ?_, ?_, ?_⟩
      · by_cases hw : e.wait = 0
        · simp only [hw, if_true]
          intro h
          simp at h
        · simp only [hw, if_false]
          split
          · simp only [ne_eq, neg_eq_zero, one_ne_zero, not_false_eq_true, if_true]
            exact cursor_valid_congr g1 _ rfl rfl rfl v1
          · simp only [ne_eq, not_true_eq_false, if_false]
            obtain ⟨f1, f2, f3, -, -⟩ := filter_decoder { g1 with s := decode g1.data }
            exact cursor_valid_congr g1 _ f1 f2 f3 v1
      · by_cases hw : e.wait = 0
        · simp only [hw, if_true, ne_eq, neg_eq_zero, one_ne_zero, not_false_eq_true]
          exact a2.trans b2
        · simp only [hw, if_false]
          split
          · simp only [ne_eq, neg_eq_zero, one_ne_zero, not_false_eq_true, if_true]
            exact a2.trans b2
          · simp only [ne_eq, not_true_eq_false, if_false]
            rw [(filter_decoder _).2.2.2.1]
            exact a2.trans b2
      · by_cases hw : e.wait = 0
        · simp only [hw, if_true, ne_eq, neg_eq_zero, one_ne_zero, not_false_eq_true]
          exact a4.trans b4
        · simp only [hw, if_false]
          split
          · simp only [ne_eq, neg_eq_zero, one_ne_zero, not_false_eq_true, if_true]
            exact a4.trans b4
          · simp only [ne_eq, not_true_eq_false, if_false]
            rw [(filter_decoder _).2.2.2.2]
            exact a4.trans b4

theorem cursor_valid_init : cursor_valid init := by
  intro h
  simp [init] at h

theorem run_cursor_valid (es : List Env) (g : State) (hv : cursor_valid g) :
    ∃ g1, run es g = some g1 ∧ cursor_valid g1 := by
  induction es generalizing g with
  | nil => exact ⟨g, rfl, hv⟩
  | cons e es ih =>
    obtain ⟨g1, h1, v1, -⟩ := read_thread_iter_total e g hv
    obtain ⟨g2, h2, v2⟩ := ih g1 v1
    exact ⟨g2, by simp [run, h1, h2], v2⟩

/-! ## The plausibility filter -/

/-- C2: when a frame has been accepted before (`_reads[1] ≠ 0`) and the iteration
decodes a checksum-valid reading `r`, the reading is rejected (the accepted counter
stays as it is, and so does the accepted reading) if and only if
`|r.t - sp.t| > 50` or `|r.rh - sp.rh| > 100`; otherwise the counter is
incremented and `r` becomes the accepted reading. -/
theorem read_thread_plausibility_filter (e : Env) (g : State) (r : st_inf)
    (hd : decoded e g = some r) (hacc : g.reads1 ≠ 0) :
    ∃ g1, read_thread_iter e g = some g1 ∧
      (g1.reads1 = g.reads1 ↔ (50 < |r.t - g.sp.t| ∨ 100 < |r.rh - g.sp.rh|)) ∧
      ((50 < |r.t - g.sp.t| ∨ 100 < |r.rh - g.sp.rh|) →
        g1.sns = g.sns ∧ g1.local_delay = SHORT_DELAY) ∧
      (¬ (50 < |r.t - g.sp.t| ∨ 100 < |r.rh - g.sp.rh|) →
        g1.reads1 = (g.reads1 + 1) % 4294967296 ∧ g1.sns = r ∧
          g1.local_delay = g.read_delay) := by
  obtain ⟨d, hrun, ds, dsns, dr1, dsp, -, -, dl, -⟩ := decoded_some e g r hd
  have hd1 : d.reads1 ≠ 0 := by rw [dr1]; exact hacc
  refine ⟨filter d, hrun, ?_, ?_, ?_⟩
  · by_cases hc : 50 < |r.t - g.sp.t| ∨ 100 < |r.rh - g.sp.rh|
    · rw [filter_reject d hd1 (by rw [ds, dsp]; exact hc)]
      simp [dr1, hc]
    · rw [filter_accept d hd1 (by rw [ds, dsp]; exact hc)]
      simp only [dr1, hc, iff_false]
      omega
  · intro hc
    rw [filter_reject d hd1 (by rw [ds, dsp]; exact hc)]
    exact ⟨dsns, rfl⟩
  · intro hc
    rw [filter_accept d hd1 (by rw [ds, dsp]; exact hc)]
    exact ⟨by rw [← dr1], ds, dl⟩

set_option maxRecDepth 100000 in
/-- C2 at the previous raw reading 20.0 degrees, 50.0 percent: the frame for 26.0
degrees is rejected, the frame for 24.0 degrees is accepted. -/
theorem read_thread_plausibility_filter_witness :
    (decoded (frame_env [1, 244, 1, 4, 250]) warm = some ⟨260, 500⟩ ∧ warm.reads1 ≠ 0 ∧
      ∃ g1, read_thread_iter (frame_env [1, 244, 1, 4, 250]) warm = some g1 ∧
        g1.reads1 = warm.reads1) ∧
    (decoded (frame_env [1, 244, 0, 240, 229]) warm = some ⟨240, 500⟩ ∧
      ∃ g1, read_thread_iter (frame_env [1, 244, 0, 240, 229]) warm = some g1 ∧
        g1.reads1 = 2 ∧ g1.sns = ⟨240, 500⟩) := by
  constructor
  · obtain ⟨g1, h1, h2, -, -⟩ := read_thread_plausibility_filter (frame_env [1, 244, 1, 4, 250]) warm
      ⟨260, 500⟩ (by decide) (by decide)
    exact ⟨by decide, by decide, g1, h1, h2.mpr (Or.inl (by decide))⟩
  · obtain ⟨g1, h1, -, -, h4⟩ := read_thread_plausibility_filter (frame_env [1, 244, 0, 240, 229]) warm
      ⟨240, 500⟩ (by decide) (by decide)
    obtain ⟨h5, h6, -⟩ := h4 (by decide)
    exact ⟨by decide, g1, h1, h5, h6⟩

/-- C6 (amended): an iteration that decodes a checksum-valid reading `r` always
stores `r` as the previous raw reading.  When a frame had been accepted before and
this one is accepted (the accepted counter changes), `r` also becomes the accepted
reading.  The first accepted frame only sets the counter to 1: the accepted reading
keeps its old value. -/
theorem read_thread_accepted_reading (e : Env) (g : State) (r : st_inf)
    (hd : decoded e g = some r) :
    ∃ g1, read_thread_iter e g = some g1 ∧ g1.sp = r ∧
      (g.reads1 = 0 → g1.reads1 = 1 ∧ g1.sns = g.sns) ∧
      (g.reads1 ≠ 0 → g1.reads1 ≠ g.reads1 →
        g1.reads1 = (g.reads1 + 1) % 4294967296 ∧ g1.sns = r) := by
  obtain ⟨d, hrun, ds, dsns, dr1, dsp, -, -, dl, -⟩ := decoded_some e g r hd
  refine ⟨filter d, hrun, ?_, ?_, ?_⟩
  · unfold filter
    dsimp only
    split
    · exact ds
    · split <;> exact ds
  · intro h0
    rw [filter_first d (by rw [dr1]; exact h0)]
    exact ⟨rfl, dsns⟩
  · intro h0 hne
    have hd1 : d.reads1 ≠ 0 := by rw [dr1]; exact h0
    by_cases hc : 50 < |d.s.t - d.sp.t| ∨ 100 < |d.s.rh - d.sp.rh|
    · rw [filter_reject d hd1 hc] at hne
      exact absurd dr1 hne
    · rw [filter_accept d hd1 hc]
      exact ⟨by rw [← dr1], ds⟩

set_option maxRecDepth 100000 in
/-- C6 at the state `warm` and the frame for 24.0 degrees, 50.0 percent. -/
theorem read_thread_accepted_reading_witness :
    decoded (frame_env [1, 244, 0, 240, 229]) warm = some ⟨240, 500⟩ ∧
    ∃ g1, read_thread_iter (frame_env [1, 244, 0, 240, 229]) warm = some g1 ∧
      g1.sp = ⟨240, 500⟩ ∧ g1.reads1 = 2 ∧ g1.sns = ⟨240, 500⟩ := by
  obtain ⟨g1, h1, h2, -, h4⟩ := read_thread_accepted_reading (frame_env [1, 244, 0, 240, 229]) warm
    ⟨240, 500⟩ (by decide)
  have h5 : g1.reads1 = 2 := by
    have h6 : (read_thread_iter (frame_env [1, 244, 0, 240, 229]) warm).map State.reads1 =
        some 2 := by decide
    rw [h1] at h6
    exact Option.some.inj h6
  exact ⟨by decide, g1, h1, h2, h5, (h4 (by decide) (by rw [h5]; decide)).2⟩

set_option maxRecDepth 100000 in
/-- C6 as stated fails for the first accepted frame: from the initial state the
frame for 26.0 degrees, 50.0 percent is decoded, the accepted counter goes from 0
to 1 and the previous raw reading becomes the decoded value, but the accepted
reading `sns` is still zero. -/
theorem read_thread_accepted_reading_counterexample :
    decoded (frame_env [1, 244, 1, 4, 250]) init = some ⟨260, 500⟩ ∧
    init.reads1 = 0 ∧
    (read_thread_iter (frame_env [1, 244, 1, 4, 250]) init).map
      (fun g => (g.reads1, g.sp, g.sns)) = some (1, ⟨260, 500⟩, ⟨0, 0⟩) := by
  decide

/-! ## First frame and repeated frames -/

theorem iter_decoded (e : Env) (g : State) (r : st_inf) (hd : decoded e g = some r) :
    ∃ g1, read_thread_iter e g = some g1 ∧ g1.sp = r ∧ g1.read_delay = g.read_delay ∧
      (g.reads1 = 0 → g1.reads1 = 1 ∧ g1.sns = g.sns ∧ g1.local_delay = SHORT_DELAY) ∧
      (g.reads1 ≠ 0 → (50 < |r.t - g.sp.t| ∨ 100 < |r.rh - g.sp.rh|) →
        g1.reads1 = g.reads1 ∧ g1.sns = g.sns ∧ g1.local_delay = SHORT_DELAY) ∧
      (g.reads1 ≠ 0 → ¬ (50 < |r.t - g.sp.t| ∨ 100 < |r.rh - g.sp.rh|) →
        g1.reads1 = (g.reads1 + 1) % 4294967296 ∧ g1.sns = r ∧
          g1.local_delay = g.read_delay) := by
  obtain ⟨d, hrun, ds, dsns, dr1, dsp, drd, -, dl, -⟩ := decoded_some e g r hd
  refine ⟨filter d, hrun, ?_, ?_, ?_, ?_, ?_⟩
  · unfold filter
    dsimp only
    split
    · exact ds
    · split <;> exact ds
  · rw [(filter_decoder d).2.2.2.2]
    exact drd
  · intro h0
    rw [filter_first d (by rw [dr1]; exact h0)]
    exact ⟨rfl, dsns, rfl⟩
  · intro h0 hc
    rw [filter_reject d (by rw [dr1]; exact h0) (by rw [ds, dsp]; exact hc)]
    exact ⟨dr1, dsns, rfl⟩
  · intro h0 hc
    rw [filter_accept d (by rw [dr1]; exact h0) (by rw [ds, dsp]; exact hc)]
    exact ⟨by rw [← dr1], ds, dl⟩

theorem within_iff (x y : Int) : ¬ (50 < |x| ∨ 100 < |y|) ↔ (|x| ≤ 50 ∧ |y| ≤ 100) := by
  rw [not_or, not_lt, not_lt]

/-- C7: a checksum-valid frame that arrives while nothing has been accepted
(`_reads[1] = 0`) is accepted whatever `sp` holds: the counter becomes 1 and the
decoded reading `r1` becomes the previous raw reading.  After any iterations that
decode nothing, the next decoded reading `r2` is accepted (counter 2) exactly when
it is within 50 tenths and 100 tenths of `r1`, and is rejected (counter 1)
otherwise. -/
theorem read_thread_first_frame (e1 : Env) (g : State) (r1 : st_inf)
    (hd : decoded e1 g = some r1) (h0 : g.reads1 = 0) :
    ∃ g1, read_thread_iter e1 g = some g1 ∧ g1.reads1 = 1 ∧ g1.sp = r1 ∧
      ∀ (mid : List Env) (g2 : State) (e2 : Env) (r2 : st_inf),
        quiet mid g1 = true → run mid g1 = some g2 → decoded e2 g2 = some r2 →
        ∃ g3, read_thread_iter e2 g2 = some g3 ∧
          (g3.reads1 = 2 ↔ (|r2.t - r1.t| ≤ 50 ∧ |r2.rh - r1.rh| ≤ 100)) ∧
          (g3.reads1 = 1 ↔ ¬ (|r2.t - r1.t| ≤ 50 ∧ |r2.rh - r1.rh| ≤ 100)) ∧
          ((|r2.t - r1.t| ≤ 50 ∧ |r2.rh - r1.rh| ≤ 100) → g3.sns = r2) := by
  obtain ⟨g1, hrun, hsp, -, hfirst, -, -⟩ := iter_decoded e1 g r1 hd
  obtain ⟨f1, -, -⟩ := hfirst h0
  refine ⟨g1, hrun, f1, hsp, ?_⟩
  intro mid g2 e2 r2 hq hmid hd2
  obtain ⟨-, q2, q3, -⟩ := quiet_run mid g1 g2 hq hmid
  obtain ⟨g3, hrun3, -, -, -, hrej, hacc⟩ := iter_decoded e2 g2 r2 hd2
  have hne : (1 : Nat) ≠ 0 := by decide
  rw [q3, hsp] at hrej hacc
  rw [q2, f1] at hrej hacc
  refine ⟨g3, hrun3, ?_⟩
  by_cases hc : 50 < |r2.t - r1.t| ∨ 100 < |r2.rh - r1.rh|
  · obtain ⟨a1, -, -⟩ := hrej hne hc
    have hw := mt (within_iff _ _).mpr (not_not.mpr hc)
    simp [a1, hw]
  · obtain ⟨a1, a2, -⟩ := hacc hne hc
    have hw := (within_iff _ _).mp hc
    have a3 : g3.reads1 = 2 := by rw [a1]
    simp [a3, hw, a2]

set_option maxRecDepth 100000 in
/-- C7 from the initial state: the frame for 26.0 degrees is accepted first; after
three iterations of delay the frame for 24.0 degrees is accepted as well. -/
theorem read_thread_first_frame_witness :
    decoded (frame_env [1, 244, 1, 4, 250]) init = some ⟨260, 500⟩ ∧ init.reads1 = 0 ∧
    quiet [idle_env, idle_env, idle_env] after_first = true ∧
    run [idle_env, idle_env, idle_env] after_first = some after_first_ready ∧
    decoded (frame_env [1, 244, 0, 240, 229]) after_first_ready = some ⟨240, 500⟩ ∧
    ∃ g3, read_thread_iter (frame_env [1, 244, 0, 240, 229]) after_first_ready = some g3 ∧
      g3.reads1 = 2 ∧ g3.sns = ⟨240, 500⟩ := by
  obtain ⟨g1, h1, -, -, h4⟩ := read_thread_first_frame (frame_env [1, 244, 1, 4, 250]) init ⟨260, 500⟩
    (by decide) (by decide)
  have hg : read_thread_iter (frame_env [1, 244, 1, 4, 250]) init = some after_first := by
    decide
  rw [hg] at h1
  have hg1 := Option.some.inj h1
  subst hg1
  obtain ⟨g3, h5, h6, -, h8⟩ := h4 [idle_env, idle_env, idle_env] after_first_ready
    (frame_env [1, 244, 0, 240, 229]) ⟨240, 500⟩ (by decide) (by decide) (by decide)
  exact ⟨by decide, by decide, by decide, by decide, by decide, g3, h5,
    h6.mpr (by decide), h8 (by decide)⟩

/-- C8: an iteration that decodes a checksum-valid reading `r` stores `r` as the
previous raw reading whether the filter rejects it or not.  If the filter rejects
`r` and, after any iterations that decode nothing, the next decoded reading is the
same `r`, that one is accepted: the counter is incremented and `r` becomes the
accepted reading. -/
theorem read_thread_rejected_then_repeated (e1 : Env) (g : State) (r : st_inf)
    (hd : decoded e1 g = some r) :
    ∃ g1, read_thread_iter e1 g = some g1 ∧ g1.sp = r ∧
      (g.reads1 ≠ 0 → (50 < |r.t - g.sp.t| ∨ 100 < |r.rh - g.sp.rh|) →
        g1.reads1 = g.reads1 ∧ g1.sns = g.sns ∧
        ∀ (mid : List Env) (g2 : State) (e2 : Env),
          quiet mid g1 = true → run mid g1 = some g2 → decoded e2 g2 = some r →
          ∃ g3, read_thread_iter e2 g2 = some g3 ∧
            g3.reads1 = (g.reads1 + 1) % 4294967296 ∧ g3.sns = r ∧ g3.sp = r) := by
  obtain ⟨g1, hrun, hsp, -, -, hrej, -⟩ := iter_decoded e1 g r hd
  refine ⟨g1, hrun, hsp, ?_⟩
  intro hne hc
  obtain ⟨a1, a2, -⟩ := hrej hne hc
  refine ⟨a1, a2, ?_⟩
  intro mid g2 e2 hq hmid hd2
  obtain ⟨-, q2, q3, -⟩ := quiet_run mid g1 g2 hq hmid
  obtain ⟨g3, hrun3, hsp3, -, -, -, hacc⟩ := iter_decoded e2 g2 r hd2
  have hne2 : g2.reads1 ≠ 0 := by rw [q2, a1]; exact hne
  have hin : ¬ (50 < |r.t - g2.sp.t| ∨ 100 < |r.rh - g2.sp.rh|) := by
    rw [q3, hsp]
    simp
  obtain ⟨b1, b2, -⟩ := hacc hne2 hin
  exact ⟨g3, hrun3, by rw [b1, q2, a1], b2, hsp3⟩

set_option maxRecDepth 100000 in
/-- C8 from the state `warm` (20.0 degrees): the frame for 26.0 degrees is rejected;
when the sensor sends it again after the delay it is accepted. -/
theorem read_thread_rejected_then_repeated_witness :
    decoded (frame_env [1, 244, 1, 4, 250]) warm = some ⟨260, 500⟩ ∧ warm.reads1 ≠ 0 ∧
    (50 < |(260 : Int) - warm.sp.t| ∨ 100 < |(500 : Int) - warm.sp.rh|) ∧
    quiet [idle_env, idle_env, idle_env] after_reject = true ∧
    run [idle_env, idle_env, idle_env] after_reject = some after_reject_ready ∧
    decoded (frame_env [1, 244, 1, 4, 250]) after_reject_ready = some ⟨260, 500⟩ ∧
    ∃ g3, read_thread_iter (frame_env [1, 244, 1, 4, 250]) after_reject_ready = some g3 ∧
      g3.reads1 = 2 ∧ g3.sns = ⟨260, 500⟩ := by
  obtain ⟨g1, h1, -, h3⟩ := read_thread_rejected_then_repeated (frame_env [1, 244, 1, 4, 250]) warm
    ⟨260, 500⟩ (by decide)
  have hg : read_thread_iter (frame_env [1, 244, 1, 4, 250]) warm = some after_reject := by
    decide
  rw [hg] at h1
  have hg1 := Option.some.inj h1
  subst hg1
  obtain ⟨-, -, h4⟩ := h3 (by decide) (Or.inl (by decide))
  obtain ⟨g3, h5, h6, h7, -⟩ := h4 [idle_env, idle_env, idle_env] after_reject_ready
    (frame_env [1, 244, 1, 4, 250]) (by decide) (by decide) (by decide)
  exact ⟨by decide, by decide, Or.inl (by decide), by decide, by decide, by decide, g3, h5,
    h6, h7⟩

/-! ## Failed attempts and the counters -/

theorem start_read_zero (a b : Int) (g : State) (h : (start_read a b g).1 = 0) :
    (start_read a b g).2 = arm g := by
  unfold start_read at h ⊢
  split
  · rename_i h1
    rw [if_pos h1] at h
    exact absurd h h1
  · dsimp only
    split <;> rfl

theorem decoded_none_of_failure (e : Env) (g : State)
    (hfail : (start_read e.gpio_out e.gpio_in (begin_read g)).1 ≠ 0 ∨ e.wait = 0 ∨
      ∃ g1, isr_run e.events (arm (begin_read g)) = some g1 ∧
        cks g1.data ≠ g1.data.getD 4 0) :
    decoded e g = none := by
  unfold decoded
  split
  · rfl
  · dsimp only
    by_cases hs : (start_read e.gpio_out e.gpio_in (begin_read g)).1 ≠ 0
    · rw [if_pos hs]
    · rw [if_neg hs]
      rcases hfail with h | h | ⟨g1, h1, h2⟩
      · exact absurd h hs
      · cases hr : isr_run e.events (start_read e.gpio_out e.gpio_in (begin_read g)).2 with
        | none => simp [do_read_data, hr]
        | some g1 => simp [do_read_data, hr, h]
      · rw [start_read_zero _ _ _ (not_not.mp hs)]
        by_cases hw : e.wait = 0
        · simp [do_read_data, h1, hw]
        · have h3 : ¬ cks g1.data = g1.data[4]?.getD 0 := by
            rw [← List.getD_eq_getElem?_getD]
            exact h2
          simp [do_read_data, h1, hw, h3]

/-- C9: an iteration that makes an attempt which fails, because `start_read`
returns an error, because the wait runs out, or because the frame in the buffer
fails the checksum, returns with the accepted reading `sns`, the accepted counter
`_reads[1]` and the previous raw reading `sp` unchanged, and decodes nothing. -/
theorem read_thread_failed_attempt (e : Env) (g : State) (hv : cursor_valid g)
    (h0 : g.local_delay = 0)
    (hfail : (start_read e.gpio_out e.gpio_in (begin_read g)).1 ≠ 0 ∨ e.wait = 0 ∨
      ∃ g1, isr_run e.events (arm (begin_read g)) = some g1 ∧
        cks g1.data ≠ g1.data.getD 4 0) :
    ∃ g1, read_thread_iter e g = some g1 ∧ g1.sns = g.sns ∧ g1.reads1 = g.reads1 ∧
      g1.sp = g.sp ∧ decoded e g = none ∧
      g1.reads0 = (g.reads0 + 1) % 4294967296 := by
  obtain ⟨g1, hrun, -, hr0, -⟩ := read_thread_iter_total e g hv
  have hn := decoded_none_of_failure e g hfail
  obtain ⟨a1, a2, a3, -⟩ := decoded_none e g g1 hn hrun
  rw [if_pos h0] at hr0
  exact ⟨g1, hrun, a1, a2, a3, hn, hr0⟩

set_option maxRecDepth 100000 in
/-- C9 at the state `warm`: a line error, a wait that runs out while the sensor
sends a valid frame, and a frame with a wrong checksum. -/
theorem read_thread_failed_attempt_witness :
    (cursor_valid warm ∧ warm.local_delay = 0) ∧
    ((start_read line_error_env.gpio_out line_error_env.gpio_in (begin_read warm)).1 ≠ 0 ∧
      ∃ g1, read_thread_iter line_error_env warm = some g1 ∧ g1.sns = warm.sns ∧
        g1.reads1 = warm.reads1 ∧ g1.sp = warm.sp) ∧
    ((late_env [1, 244, 0, 240, 229]).wait = 0 ∧
      ∃ g1, read_thread_iter (late_env [1, 244, 0, 240, 229]) warm = some g1 ∧
        g1.sns = warm.sns ∧ g1.reads1 = warm.reads1 ∧ g1.sp = warm.sp) ∧
    ((∃ g1, isr_run (frame_env [1, 244, 0, 240, 228]).events (arm (begin_read warm)) = some g1 ∧
        cks g1.data ≠ g1.data.getD 4 0) ∧
      ∃ g1, read_thread_iter (frame_env [1, 244, 0, 240, 228]) warm = some g1 ∧
        g1.sns = warm.sns ∧ g1.reads1 = warm.reads1 ∧ g1.sp = warm.sp) := by
  have hv : cursor_valid warm := by decide
  have hbad : ∃ g1, isr_run (frame_env [1, 244, 0, 240, 228]).events (arm (begin_read warm)) =
      some g1 ∧ cks g1.data ≠ g1.data.getD 4 0 :=
    ⟨(isr_run (frame_env [1, 244, 0, 240, 228]).events (arm (begin_read warm))).getD init,
      by decide, by decide⟩
  refine ⟨⟨hv, rfl⟩, ⟨by decide, ?_⟩, ⟨rfl, ?_⟩, ⟨hbad, ?_⟩⟩
  · obtain ⟨g1, h1, h2, h3, h4, -⟩ :=
      read_thread_failed_attempt line_error_env warm hv rfl (Or.inl (by decide))
    exact ⟨g1, h1, h2, h3, h4⟩
  · obtain ⟨g1, h1, h2, h3, h4, -⟩ :=
      read_thread_failed_attempt (late_env [1, 244, 0, 240, 229]) warm hv rfl (Or.inr (Or.inl rfl))
    exact ⟨g1, h1, h2, h3, h4⟩
  · obtain ⟨g1, h1, h2, h3, h4, -⟩ :=
      read_thread_failed_attempt (frame_env [1, 244, 0, 240, 228]) warm hv rfl (Or.inr (Or.inr hbad))
    exact ⟨g1, h1, h2, h3, h4⟩

/-- C10 (amended): every iteration returns.  With delay 0 the attempts counter
`_reads[0]` becomes `(_reads[0] + 1) mod 2^32` whatever the outcome, which is an
increase by one unless the counter held 4294967295; with a delay other than 0 both
counters are unchanged.  The accepted counter `_reads[1]` becomes
`(_reads[1] + 1) mod 2^32` when a checksum-valid reading is decoded and either
nothing was accepted before or the reading passes the filter, and is unchanged in
every other case. -/
theorem read_thread_counters (e : Env) (g : State) (hv : cursor_valid g) :
    ∃ g1, read_thread_iter e g = some g1 ∧
      (g.local_delay = 0 → g1.reads0 = (g.reads0 + 1) % 4294967296) ∧
      (g.local_delay = 0 → g.reads0 < 4294967295 → g1.reads0 = g.reads0 + 1) ∧
      (g.local_delay ≠ 0 → g1.reads0 = g.reads0 ∧ g1.reads1 = g.reads1) ∧
      ((∃ r, decoded e g = some r ∧
          (g.reads1 = 0 ∨ (|r.t - g.sp.t| ≤ 50 ∧ |r.rh - g.sp.rh| ≤ 100))) →
        g1.reads1 = (g.reads1 + 1) % 4294967296 ∧
          (g.reads1 < 4294967295 → g1.reads1 = g.reads1 + 1)) ∧
      (¬ (∃ r, decoded e g = some r ∧
          (g.reads1 = 0 ∨ (|r.t - g.sp.t| ≤ 50 ∧ |r.rh - g.sp.rh| ≤ 100))) →
        g1.reads1 = g.reads1) := by
  obtain ⟨g1, hrun, -, hr0, -⟩ := read_thread_iter_total e g hv
  have hacc : (∃ r, decoded e g = some r ∧
      (g.reads1 = 0 ∨ (|r.t - g.sp.t| ≤ 50 ∧ |r.rh - g.sp.rh| ≤ 100))) →
      g1.reads1 = (g.reads1 + 1) % 4294967296 := by
    rintro ⟨r, hd, hc⟩
    obtain ⟨g2, hrun2, -, -, hfirst, -, hpass⟩ := iter_decoded e g r hd
    rw [hrun] at hrun2
    have hg := Option.some.inj hrun2
    subst hg
    by_cases hz : g.reads1 = 0
    · rw [(hfirst hz).1, hz]
    · rcases hc with hc | hc
      · exact absurd hc hz
      · exact (hpass hz ((within_iff _ _).mpr hc)).1
  refine ⟨g1, hrun, ?_, ?_, ?_, ?_, ?_⟩
  · intro h0
    rw [hr0, if_pos h0]
  · intro h0 hlt
    rw [hr0, if_pos h0]
    omega
  · intro h0
    have hn : decoded e g = none := by
      unfold decoded
      rw [if_pos h0]
    obtain ⟨-, a2, -, -⟩ := decoded_none e g g1 hn hrun
    rw [hr0, if_neg h0]
    exact ⟨rfl, a2⟩
  · intro h
    have h1 := hacc h
    refine ⟨h1, fun hlt => ?_⟩
    rw [h1]
    omega
  · intro h
    cases hd : decoded e g with
    | none => exact (decoded_none e g g1 hd hrun).2.1
    | some r =>
      obtain ⟨g2, hrun2, -, -, -, hrej, -⟩ := iter_decoded e g r hd
      rw [hrun] at hrun2
      have hg := Option.some.inj hrun2
      subst hg
      have hz : g.reads1 ≠ 0 := fun hz => h ⟨r, hd, Or.inl hz⟩
      have hc : 50 < |r.t - g.sp.t| ∨ 100 < |r.rh - g.sp.rh| := by
        by_contra hc
        exact h ⟨r, hd, Or.inr ((within_iff _ _).mp hc)⟩
      exact (hrej hz hc).1

set_option maxRecDepth 100000 in
/-- C10 at the state `warm` and the frame for 24.0 degrees: the attempts counter
goes from 0 to 1 and the accepted counter from 1 to 2. -/
theorem read_thread_counters_witness :
    cursor_valid warm ∧
    ∃ g1, read_thread_iter (frame_env [1, 244, 0, 240, 229]) warm = some g1 ∧
      g1.reads0 = warm.reads0 + 1 ∧ g1.reads1 = warm.reads1 + 1 := by
  have hv : cursor_valid warm := by decide
  obtain ⟨g1, h1, -, h3, -, h5, -⟩ := read_thread_counters (frame_env [1, 244, 0, 240, 229]) warm hv
  exact ⟨hv, g1, h1, h3 rfl (by decide),
    (h5 ⟨⟨240, 500⟩, by decide, Or.inr ⟨by decide, by decide⟩⟩).2 (by decide)⟩

/-- C10 as stated fails when the attempts counter holds 4294967295: the iteration
makes an attempt (the delay is 0) and the counter becomes 0 instead of growing by
one. -/
theorem read_thread_counters_counterexample :
    full_count.local_delay = 0 ∧ full_count.reads0 = 4294967295 ∧
    (read_thread_iter idle_env full_count).map State.reads0 = some 0 := by
  decide

/-! ## Consistency of the decoder -/

theorem cursor_range_valid (g : State) (h : cursor_range g) : cursor_valid g := by
  intro hr
  exact ⟨h.1, h.2.2.2.2 hr, h.2.2.1, h.2.2.2.1⟩

theorem read_isr_bit_low (now : Int) (g : State) (h : g.read_req = .READ_BIT_LOW)
    (hc0 : 0 ≤ g.char_count) (hc4 : g.char_count ≤ 4) (hb0 : 0 ≤ g.bit_count)
    (hb7 : g.bit_count ≤ 7) :
    read_isr now 0 g = some
      { g with
        read_req := if g.bit_count = 0 ∧ g.char_count = 4 then .READ_STOP else .READ_BIT_HIGH
        old := now
        ulen := toInt32 (ktime_us_delta now g.old)
        data := if toInt32 (ktime_us_delta now g.old) > 40 then
            g.data.set g.char_count.toNat
              ((g.data.getD g.char_count.toNat 0 ||| (1 <<< g.bit_count.toNat)) % 256)
          else g.data
        bit_count := if g.bit_count = 0 then 7 else g.bit_count - 1
        char_count := if g.bit_count = 0 then g.char_count + 1 else g.char_count } := by
  have hd : 0 ≤ g.char_count ∧ g.char_count < 5 ∧ 0 ≤ g.bit_count ∧ g.bit_count < 31 :=
    ⟨hc0, by omega, hb0, by omega⟩
  have e5 : (g.char_count + 1 = 5) ↔ g.char_count = 4 := by omega
  have n5 : ¬ g.char_count = 5 := by omega
  have eb : (g.bit_count < 1) ↔ g.bit_count = 0 := by omega
  by_cases hl : toInt32 (ktime_us_delta now g.old) > 40 <;>
  by_cases hz : g.bit_count = 0 <;>
  by_cases h4 : g.char_count = 4 <;>
  simp [read_isr, h, data_or_bit, next_bit, hd, hl, hz, h4, e5, n5, eb]

theorem read_isr_other (now level : Int) (g : State)
    (h : ¬ (g.read_req = .READ_BIT_LOW ∧ level = 0)) :
    ∃ g1, read_isr now level g = some g1 ∧ g1.old = now ∧ g1.ulen = g.ulen ∧
      ((g.read_req = .READ_BIT_START ∧ level = 0 ∧ g1.read_req = .READ_BIT_HIGH ∧
          g1.char_count = 0 ∧ g1.bit_count = 7 ∧ g1.data = List.replicate 5 0) ∨
        (g1.char_count = g.char_count ∧ g1.bit_count = g.bit_count ∧ g1.data = g.data ∧
          ¬ (g.read_req = .READ_BIT_START ∧ level = 0) ∧
          (g1.read_req = g.read_req ∨
            (g.read_req = .READ_START ∧ level = 0 ∧ g1.read_req = .READ_START_HIGH) ∨
            (g.read_req = .READ_START_HIGH ∧ level = 1 ∧ g1.read_req = .READ_BIT_START) ∨
            (g.read_req = .READ_BIT_HIGH ∧ level = 1 ∧ g1.read_req = .READ_BIT_LOW)))) := by
  unfold read_isr
  cases hr : g.read_req <;> by_cases h0 : level = 0 <;> by_cases h1 : level = 1 <;>
    simp [hr, h0, h1] at h ⊢

theorem frame_bit_replicate (j : Nat) : frame_bit (List.replicate 5 0) j = false := by
  have hz : (List.replicate 5 (0 : Nat)).getD (j / 8) 0 = 0 := by
    rw [List.getD_eq_getElem?_getD, List.getElem?_replicate]
    split <;> rfl
  unfold frame_bit
  rw [hz]
  simp

theorem frame_bit_or_cursor (data : List Nat) (c b : Int) (j : Nat) (hlen : data.length = 5)
    (hc0 : 0 ≤ c) (hc4 : c ≤ 4) (hb0 : 0 ≤ b) (hb7 : b ≤ 7) :
    frame_bit (data.set c.toNat ((data.getD c.toNat 0 ||| 1 <<< b.toNat) % 256)) j =
      (frame_bit data j || decide (j = 8 * c.toNat + (7 - b.toNat))) := by
  have h1 : c.toNat = (8 * c.toNat + (7 - b.toNat)) / 8 := by omega
  have h2 : b.toNat = 7 - (8 * c.toNat + (7 - b.toNat)) % 8 := by omega
  have h := frame_bit_set data (8 * c.toNat + (7 - b.toNat)) j hlen (by omega)
  rw [← h1, ← h2] at h
  exact h

theorem read_isr_decoder_ok (now level : Int) (g : State) (hok : decoder_ok g) :
    ∃ g1, read_isr now level g = some g1 ∧ decoder_ok g1 ∧ g1.old = now := by
  obtain ⟨⟨c0, c5, b0, b7, c4⟩, hclr⟩ := hok
  by_cases hcase : g.read_req = .READ_BIT_LOW ∧ level = 0
  · obtain ⟨hr, hl⟩ := hcase
    have hc4 := c4 (Or.inr hr)
    obtain ⟨hlen, hbits⟩ := hclr (Or.inr hr)
    rw [hl, read_isr_bit_low now g hr c0 hc4 b0 b7]
    refine ⟨_, rfl, ⟨⟨?_, ?_, ?_, ?_, ?_⟩, ?_⟩, rfl⟩
    · dsimp only; split <;> omega
    · dsimp only; split <;> omega
    · dsimp only; split <;> omega
    · dsimp only; split <;> omega
    · dsimp only
      intro h
      by_cases hz : g.bit_count = 0 ∧ g.char_count = 4
      · rw [if_pos hz] at h
        simp at h
      · split <;> omega
    · dsimp only
      intro h
      by_cases hz : g.bit_count = 0 ∧ g.char_count = 4
      · rw [if_pos hz] at h
        simp at h
      · constructor
        · split
          · rw [List.length_set]; exact hlen
          · exact hlen
        · intro j hj hj40
          have hpos : 8 * g.char_count.toNat + (7 - g.bit_count.toNat) < j := by
            split at hj <;> omega
          have hold := hbits j (by omega) hj40
          split
          · rw [frame_bit_or_cursor _ _ _ _ hlen c0 hc4 b0 b7, hold]
            have : ¬ j = 8 * g.char_count.toNat + (7 - g.bit_count.toNat) := by omega
            simp [this]
          · exact hold
  · obtain ⟨g1, h1, hold, -, hcs⟩ := read_isr_other now level g hcase
    refine ⟨g1, h1, ?_, hold⟩
    rcases hcs with ⟨-, -, hr1, hc, hb, hd⟩ | ⟨hc, hb, hd, hns, hr1⟩
    · refine ⟨⟨by omega, by omega, by omega, by omega, fun _ => by omega⟩, fun _ => ?_⟩
      rw [hd]
      refine ⟨by simp, fun j _ _ => frame_bit_replicate j⟩
    · have hbit : (g1.read_req = .READ_BIT_HIGH ∨ g1.read_req = .READ_BIT_LOW) →
          (g.read_req = .READ_BIT_HIGH ∨ g.read_req = .READ_BIT_LOW) := by
        intro h
        rcases hr1 with e | ⟨-, -, e⟩ | ⟨-, -, e⟩ | ⟨e0, -, -⟩
        · rw [e] at h; exact h
        · rw [e] at h; simp at h
        · rw [e] at h; simp at h
        · exact Or.inl e0
      refine ⟨⟨by omega, by omega, by omega, by omega, fun h => ?_⟩, fun h => ?_⟩
      · rw [hc]; exact c4 (hbit h)
      · rw [hc, hb, hd]; exact hclr (hbit h)

theorem isr_run_decoder_ok (evs : List (Int × Int)) (g : State) (hok : decoder_ok g) :
    ∃ g1, isr_run evs g = some g1 ∧ decoder_ok g1 := by
  induction evs generalizing g with
  | nil => exact ⟨g, rfl, hok⟩
  | cons ev evs ih =>
    obtain ⟨g1, h1, ok1, -⟩ := read_isr_decoder_ok ev.1 ev.2 g hok
    obtain ⟨g2, h2, ok2⟩ := ih g1 ok1
    exact ⟨g2, by simp [isr_run, h1, h2], ok2⟩

theorem decoder_ok_of_not_reading (g : State) (hr : cursor_range g)
    (h : ¬ (g.read_req = .READ_BIT_HIGH ∨ g.read_req = .READ_BIT_LOW)) : decoder_ok g :=
  ⟨hr, fun h2 => absurd h2 h⟩

theorem decoder_ok_init : decoder_ok init :=
  decoder_ok_of_not_reading init (by decide) (by decide)

/-! ## Arming, idle and the cursor -/

theorem read_isr_old (now level : Int) (g g1 : State) (h : read_isr now level g = some g1) :
    g1.old = now := by
  unfold read_isr at h
  obtain ⟨a, -, ha⟩ := Option.map_eq_some'.mp h
  rw [← ha]

theorem do_read_data_timeout (evs : List (Int × Int)) (g g1 : State)
    (h : isr_run evs g = some g1) : do_read_data evs 0 g = some (-1, force_stop g1) := by
  simp [do_read_data, h, force_stop]

theorem dec_run_decoder_ok (ops : List DecOp) (g : State) (hok : decoder_ok g) :
    ∃ g1, dec_run ops g = some g1 ∧ decoder_ok g1 := by
  induction ops generalizing g with
  | nil => exact ⟨g, rfl, hok⟩
  | cons op ops ih =>
    have hstep : ∃ g1, dec_step op g = some g1 ∧ decoder_ok g1 := by
      cases op with
      | arm =>
        refine ⟨arm g, rfl, decoder_ok_of_not_reading _ ?_ (by simp [arm])⟩
        exact ⟨hok.1.1, hok.1.2.1, hok.1.2.2.1, hok.1.2.2.2.1, fun h => by simp [arm] at h⟩
      | timeout =>
        refine ⟨force_stop g, rfl, decoder_ok_of_not_reading _ ?_ (by simp [force_stop])⟩
        exact ⟨hok.1.1, hok.1.2.1, hok.1.2.2.1, hok.1.2.2.2.1,
          fun h => by simp [force_stop] at h⟩
      | edge now level =>
        obtain ⟨g1, h1, ok1, -⟩ := read_isr_decoder_ok now level g hok
        exact ⟨g1, h1, ok1⟩
    obtain ⟨g1, h1, ok1⟩ := hstep
    obtain ⟨g2, h2, ok2⟩ := ih g1 ok1
    exact ⟨g2, by simp [dec_run, h1, h2], ok2⟩

/-- C19: from the initial state every sequence of arming, timeouts and edges is
handled without an undefined step; whenever the decoder is in `READ_BIT_HIGH` or
`READ_BIT_LOW` the cursor satisfies `0 ≤ char_count ≤ 4` and `0 ≤ bit_count ≤ 7`,
so in `READ_BIT_LOW` the write `_data[char_count] |= 1 << bit_count` is defined
and every further edge is handled. -/
theorem dec_run_cursor (ops : List DecOp) :
    ∃ g, dec_run ops init = some g ∧
      ((g.read_req = .READ_BIT_HIGH ∨ g.read_req = .READ_BIT_LOW) →
        0 ≤ g.char_count ∧ g.char_count ≤ 4 ∧ 0 ≤ g.bit_count ∧ g.bit_count ≤ 7) ∧
      (g.read_req = .READ_BIT_LOW → ∃ g1, data_or_bit g = some g1) ∧
      (∀ now level, ∃ g1, read_isr now level g = some g1) := by
  obtain ⟨g, hrun, hok⟩ := dec_run_decoder_ok ops init decoder_ok_init
  refine ⟨g, hrun, ?_, ?_, ?_⟩
  · intro h
    exact ⟨hok.1.1, hok.1.2.2.2.2 h, hok.1.2.2.1, hok.1.2.2.2.1⟩
  · intro h
    have h4 := hok.1.2.2.2.2 (Or.inr h)
    have hd : 0 ≤ g.char_count ∧ g.char_count < 5 ∧ 0 ≤ g.bit_count ∧ g.bit_count < 31 :=
      ⟨hok.1.1, by omega, hok.1.2.2.1, by have := hok.1.2.2.2.1; omega⟩
    exact ⟨_, if_pos hd⟩
  · intro now level
    obtain ⟨g1, h1, -, -⟩ := read_isr_decoder_ok now level g hok
    exact ⟨g1, h1⟩

set_option maxRecDepth 100000 in
/-- C19 at a run in which a frame is cut short by a timeout, the decoder is armed
again and the first edges of the next frame arrive: the decoder reads a bit with
the cursor at byte 0, bit 7. -/
theorem dec_run_cursor_witness :
    ∃ g, dec_run ([DecOp.arm] ++ ((sensor_frame [1, 244, 1, 4, 250]).take 27).map
        (fun ev => DecOp.edge ev.1 ev.2) ++ [DecOp.timeout, DecOp.arm, DecOp.edge 0 0,
          DecOp.edge 80000 1, DecOp.edge 160000 0, DecOp.edge 210000 1]) init = some g ∧
      g.read_req = .READ_BIT_LOW ∧
      0 ≤ g.char_count ∧ g.char_count ≤ 4 ∧ 0 ≤ g.bit_count ∧ g.bit_count ≤ 7 := by
  obtain ⟨g, h1, h2, -, -⟩ := dec_run_cursor ([DecOp.arm] ++
    ((sensor_frame [1, 244, 1, 4, 250]).take 27).map (fun ev => DecOp.edge ev.1 ev.2) ++
    [DecOp.timeout, DecOp.arm, DecOp.edge 0 0, DecOp.edge 80000 1, DecOp.edge 160000 0,
      DecOp.edge 210000 1])
  have h3 : (dec_run ([DecOp.arm] ++ ((sensor_frame [1, 244, 1, 4, 250]).take 27).map
      (fun ev => DecOp.edge ev.1 ev.2) ++ [DecOp.timeout, DecOp.arm, DecOp.edge 0 0,
        DecOp.edge 80000 1, DecOp.edge 160000 0, DecOp.edge 210000 1]) init).map
      State.read_req = some .READ_BIT_LOW := by decide
  rw [h1] at h3
  have h4 : g.read_req = .READ_BIT_LOW := Option.some.inj h3
  exact ⟨g, h1, h4, h2 (Or.inr h4)⟩

theorem isr_run_stop_same (evs : List (Int × Int)) (g : State) (h : g.read_req = .READ_STOP) :
    ∃ g1, isr_run evs g = some g1 ∧ g1.read_req = .READ_STOP ∧
      g1.bit_count = g.bit_count ∧ g1.char_count = g.char_count ∧ g1.data = g.data := by
  induction evs generalizing g with
  | nil => exact ⟨g, rfl, h, rfl, rfl, rfl⟩
  | cons ev evs ih =>
    simp only [isr_run, read_isr_stop _ _ g h, Option.some_bind]
    obtain ⟨g1, h1, h2, h3, h4, h5⟩ := ih { g with old := ev.1 } h
    exact ⟨g1, h1, h2, h3, h4, h5⟩

/-- C17: in `READ_STOP` an edge with any time stamp and any level is handled and
leaves the decoder state, `bit_count`, `char_count` and the buffer `_data` as they
were (only `_old` is written); the same holds for every list of edges. -/
theorem read_isr_idle (now level : Int) (g : State) (h : g.read_req = .READ_STOP) :
    read_isr now level g = some { g with old := now } ∧
    ∀ evs : List (Int × Int), ∃ g1, isr_run evs g = some g1 ∧ g1.read_req = .READ_STOP ∧
      g1.bit_count = g.bit_count ∧ g1.char_count = g.char_count ∧ g1.data = g.data := by
  refine ⟨?_, fun evs => isr_run_stop_same evs g h⟩
  simp [read_isr, h]

set_option maxRecDepth 100000 in
/-- C17 at the decoder that holds the complete frame 1, 244, 1, 4, 250: a rising
and a falling edge leave the frame in the buffer. -/
theorem read_isr_idle_witness :
    complete.read_req = .READ_STOP ∧ complete.data = [1, 244, 1, 4, 250] ∧
    read_isr 5000000 1 complete = some { complete with old := 5000000 } ∧
    ∃ g1, isr_run [(5000000, 1), (5090000, 0)] complete = some g1 ∧
      g1.read_req = .READ_STOP ∧ g1.data = complete.data := by
  obtain ⟨h1, h2⟩ := read_isr_idle 5000000 1 complete (by decide)
  obtain ⟨g1, h3, h4, -, -, h5⟩ := h2 [(5000000, 1), (5090000, 0)]
  exact ⟨by decide, by decide, h1, g1, h3, h4, h5⟩

/-- C18: for a cursor in its domain, `read_isr` handles every edge and changes the
bit position `p = 8 * char_count + (7 - bit_count)` in one of three ways: it
leaves the cursor as it is, it resets it to byte 0, bit 7 (`p = 0`, level 0 in
`READ_BIT_START`), or it advances `p` by exactly 1 (level 0 in `READ_BIT_LOW`).
`char_count` grows only in the last case, by exactly 1, when `bit_count` was 0
and becomes 7. -/
theorem read_isr_bit_position (now level : Int) (g : State) (hr : cursor_range g) :
    ∃ g1, read_isr now level g = some g1 ∧
      ((g1.char_count = g.char_count ∧ g1.bit_count = g.bit_count ∧ bit_pos g1 = bit_pos g) ∨
        (g.read_req = .READ_BIT_START ∧ level = 0 ∧ g1.char_count = 0 ∧ g1.bit_count = 7 ∧
          bit_pos g1 = 0) ∨
        (g.read_req = .READ_BIT_LOW ∧ level = 0 ∧ bit_pos g1 = bit_pos g + 1)) ∧
      (g.char_count < g1.char_count →
        g.read_req = .READ_BIT_LOW ∧ level = 0 ∧ g1.char_count = g.char_count + 1 ∧
          g.bit_count = 0 ∧ g1.bit_count = 7) := by
  obtain ⟨c0, c5, b0, b7, c4⟩ := hr
  by_cases hcase : g.read_req = .READ_BIT_LOW ∧ level = 0
  · obtain ⟨hlow, hl⟩ := hcase
    have hc4 := c4 (Or.inr hlow)
    rw [hl, read_isr_bit_low now g hlow c0 hc4 b0 b7]
    refine ⟨_, rfl, Or.inr (Or.inr ⟨hlow, rfl, ?_⟩), ?_⟩
    · unfold bit_pos
      dsimp only
      split <;> omega
    · dsimp only
      intro h
      by_cases hz : g.bit_count = 0
      · simp [hz, hlow]
      · rw [if_neg hz] at h
        omega
  · obtain ⟨g1, h1, -, -, hcs⟩ := read_isr_other now level g hcase
    refine ⟨g1, h1, ?_, ?_⟩
    · rcases hcs with ⟨hs, hl, -, hc, hb, -⟩ | ⟨hc, hb, -, -, -⟩
      · exact Or.inr (Or.inl ⟨hs, hl, hc, hb, by unfold bit_pos; omega⟩)
      · exact Or.inl ⟨hc, hb, by unfold bit_pos; omega⟩
    · intro h
      rcases hcs with ⟨-, -, -, hc, -, -⟩ | ⟨hc, -, -, -, -⟩ <;> omega

set_option maxRecDepth 100000 in
/-- C18 at the decoder that waits for the falling edge of the eighth pulse: the
edge moves the cursor from byte 0, bit 0 to byte 1, bit 7. -/
theorem read_isr_bit_position_witness :
    cursor_range byte_end ∧ byte_end.char_count = 0 ∧ byte_end.bit_count = 0 ∧
    ∃ g1, read_isr 1120000 0 byte_end = some g1 ∧ g1.char_count = 1 ∧ g1.bit_count = 7 ∧
      bit_pos g1 = bit_pos byte_end + 1 := by
  obtain ⟨g1, h1, -, h3⟩ := read_isr_bit_position 1120000 0 byte_end (by decide)
  have h4 : (read_isr 1120000 0 byte_end).map (fun g => (g.char_count, bit_pos g)) =
      some (1, bit_pos byte_end + 1) := by decide
  rw [h1] at h4
  have h5 := Option.some.inj h4
  simp only [Prod.mk.injEq] at h5
  have h6 : byte_end.char_count < g1.char_count := by
    rw [h5.1]
    decide
  obtain ⟨-, -, -, -, h7⟩ := h3 h6
  exact ⟨by decide, by decide, by decide, g1, h1, h5.1, h7, h5.2⟩

theorem read_isr_before_reset (now level : Int) (g g1 : State)
    (h : read_isr now level g = some g1)
    (he : g1.read_req = .READ_START ∨ g1.read_req = .READ_START_HIGH ∨
      g1.read_req = .READ_BIT_START) :
    (g.read_req = .READ_START ∨ g.read_req = .READ_START_HIGH ∨
        g.read_req = .READ_BIT_START) ∧
      g1.bit_count = g.bit_count ∧ g1.char_count = g.char_count ∧ g1.data = g.data := by
  by_cases hcase : g.read_req = .READ_BIT_LOW ∧ level = 0
  · obtain ⟨hlow, hl⟩ := hcase
    rw [hl] at h
    unfold read_isr at h
    rw [hlow] at h
    simp only [if_true] at h
    obtain ⟨a, ha, ha2⟩ := Option.map_eq_some'.mp h
    obtain ⟨b, -, hb2⟩ := Option.map_eq_some'.mp ha
    rw [← ha2, ← hb2] at he
    dsimp only at he
    split at he <;> simp at he
  · obtain ⟨g2, h2, -, -, hcs⟩ := read_isr_other now level g hcase
    rw [h] at h2
    have hg := Option.some.inj h2
    subst hg
    rcases hcs with ⟨-, -, hr, -, -, -⟩ | ⟨hc, hb, hd, -, hr⟩
    · rw [hr] at he
      simp at he
    · refine ⟨?_, hb, hc, hd⟩
      rcases hr with e | ⟨e0, -, -⟩ | ⟨e0, -, -⟩ | ⟨-, -, e⟩
      · rw [e] at he; exact he
      · exact Or.inl e0
      · exact Or.inr (Or.inl e0)
      · rw [e] at he; simp at he

theorem isr_run_before_reset (evs : List (Int × Int)) (g g1 : State)
    (h : isr_run evs g = some g1)
    (he : g1.read_req = .READ_START ∨ g1.read_req = .READ_START_HIGH ∨
      g1.read_req = .READ_BIT_START) :
    g1.bit_count = g.bit_count ∧ g1.char_count = g.char_count ∧ g1.data = g.data := by
  induction evs using List.reverseRecOn generalizing g1 with
  | nil =>
    simp only [isr_run, Option.some.injEq] at h
    subst h
    exact ⟨rfl, rfl, rfl⟩
  | append_singleton l ev ih =>
    rw [isr_run_append] at h
    cases hm : isr_run l g with
    | none => rw [hm] at h; simp at h
    | some gm =>
      rw [hm, Option.some_bind] at h
      simp only [isr_run] at h
      cases hs : read_isr ev.1 ev.2 gm with
      | none => rw [hs] at h; simp at h
      | some g2 =>
        rw [hs, Option.some_bind, Option.some.injEq] at h
        subst h
        obtain ⟨hem, a1, a2, a3⟩ := read_isr_before_reset _ _ _ _ hs he
        obtain ⟨b1, b2, b3⟩ := ih gm hm hem
        exact ⟨a1.trans b1, a2.trans b2, a3.trans b3⟩

/-- C13 (amended): `arm` sets the decoder state to `READ_START` and writes nothing
else: `bit_count`, `char_count` and the buffer keep their values, and they keep
them for as long as the decoder is in `READ_START`, `READ_START_HIGH` or
`READ_BIT_START`.  The cursor is set to byte 0, bit 7 and the buffer is cleared by
`read_isr` at the level-0 edge in `READ_BIT_START`, before any bit of the new
frame is read; every list of edges after `arm` is handled. -/
theorem arm_keeps_cursor (g : State) :
    ((arm g).read_req = .READ_START ∧ (arm g).bit_count = g.bit_count ∧
      (arm g).char_count = g.char_count ∧ (arm g).data = g.data) ∧
    (∀ (evs : List (Int × Int)) (g1 : State), isr_run evs (arm g) = some g1 →
      (g1.read_req = .READ_START ∨ g1.read_req = .READ_START_HIGH ∨
        g1.read_req = .READ_BIT_START) →
      g1.bit_count = g.bit_count ∧ g1.char_count = g.char_count ∧ g1.data = g.data) ∧
    (∀ (now : Int) (g1 : State), g1.read_req = .READ_BIT_START →
      read_isr now 0 g1 = some
        { g1 with read_req := .READ_BIT_HIGH, bit_count := 7, char_count := 0,
                  data := List.replicate 5 0, old := now }) ∧
    (∀ evs : List (Int × Int), ∃ g1, isr_run evs (arm g) = some g1 ∧ cursor_valid g1) := by
  refine ⟨⟨rfl, rfl, rfl, rfl⟩, ?_, ?_, ?_⟩
  · intro evs g1 h he
    exact isr_run_before_reset evs (arm g) g1 h he
  · intro now g1 h
    simp [read_isr, h]
  · intro evs
    obtain ⟨g1, h1, v1, -⟩ := isr_run_cursor_valid evs (arm g) (by
      intro h
      simp [arm] at h)
    exact ⟨g1, h1, v1⟩

set_option maxRecDepth 100000 in
/-- C13 at the decoder `stale`, armed in the middle of a frame: after the
acknowledge edges the cursor and the buffer still hold the old values, and the
next falling edge resets them. -/
theorem arm_keeps_cursor_witness :
    (∃ g1, isr_run [(0, 0), (80000, 1)] (arm stale) = some g1 ∧
      g1.read_req = .READ_BIT_START ∧
      g1.bit_count = stale.bit_count ∧ g1.char_count = stale.char_count ∧
      g1.data = stale.data ∧
      read_isr 160000 0 g1 = some
        { g1 with read_req := .READ_BIT_HIGH, bit_count := 7, char_count := 0,
                  data := List.replicate 5 0, old := 160000 }) := by
  obtain ⟨-, h2, h3, h4⟩ := arm_keeps_cursor stale
  obtain ⟨g1, h5, -⟩ := h4 [(0, 0), (80000, 1)]
  have h6 : (isr_run [(0, 0), (80000, 1)] (arm stale)).map State.read_req =
      some .READ_BIT_START := by decide
  rw [h5] at h6
  have h7 : g1.read_req = .READ_BIT_START := Option.some.inj h6
  obtain ⟨a1, a2, a3⟩ := h2 _ g1 h5 (Or.inr (Or.inr h7))
  exact ⟨g1, h5, h7, a1, a2, a3, h3 160000 g1 h7⟩

set_option maxRecDepth 100000 in
/-- C13 as stated fails: the decoder `stale` is in the middle of a frame (state
`READ_BIT_HIGH`, byte 1, bit 3, buffer 1, 240, 0, 0, 0); after `arm` the state is
`READ_START` but the cursor is still at byte 1, bit 3 and the buffer is not
cleared. -/
theorem arm_keeps_cursor_counterexample :
    stale.read_req = .READ_BIT_HIGH ∧
    (arm stale).read_req = .READ_START ∧ (arm stale).char_count = 1 ∧
    (arm stale).bit_count = 3 ∧ (arm stale).data = [1, 240, 0, 0, 0] ∧
    (start_read 0 0 stale).2 = arm stale := by
  decide

theorem testBit_at_cursor (data : List Nat) (c b : Int) (hb0 : 0 ≤ b) (hb7 : b ≤ 7) :
    (data.getD c.toNat 0).testBit b.toNat = frame_bit data (8 * c.toNat + (7 - b.toNat)) := by
  have h1 : (8 * c.toNat + (7 - b.toNat)) / 8 = c.toNat := by omega
  have h2 : 7 - (8 * c.toNat + (7 - b.toNat)) % 8 = b.toNat := by omega
  unfold frame_bit
  rw [h1, h2]

/-- C15 (amended): after any edges, the last of them at time `tp`, when `read_isr`
handles a level-0 edge at time `now` in `READ_BIT_LOW`, the bit under the cursor is
set if and only if the time since the previous edge, `now - tp` in whole
microseconds as stored in the 32-bit `int` `_ulen`, exceeds 40.  The previous edge
is the last edge the handler ran for, whatever its level and whether or not it
changed the decoder state, because `_old` is written on every edge. -/
theorem read_isr_pulse_width (evs : List (Int × Int)) (tp lp now : Int) (g0 g : State)
    (hok : decoder_ok g0) (hrun : isr_run (evs ++ [(tp, lp)]) g0 = some g)
    (hlow : g.read_req = .READ_BIT_LOW) :
    ∃ g1, read_isr now 0 g = some g1 ∧
      ((g1.data.getD g.char_count.toNat 0).testBit g.bit_count.toNat = true ↔
        toInt32 (ktime_us_delta now tp) > 40) ∧
      (-2147483648 ≤ ktime_us_delta now tp → ktime_us_delta now tp < 2147483648 →
        ((g1.data.getD g.char_count.toNat 0).testBit g.bit_count.toNat = true ↔
          ktime_us_delta now tp > 40)) := by
  obtain ⟨g2, h2, ok2⟩ := isr_run_decoder_ok (evs ++ [(tp, lp)]) g0 hok
  rw [hrun] at h2
  have hg := Option.some.inj h2
  subst hg
  have hold : g.old = tp := by
    rw [isr_run_append] at hrun
    cases hm : isr_run evs g0 with
    | none => rw [hm] at hrun; simp at hrun
    | some gm =>
      rw [hm, Option.some_bind] at hrun
      simp only [isr_run] at hrun
      cases hs : read_isr tp lp gm with
      | none => rw [hs] at hrun; simp at hrun
      | some g3 =>
        rw [hs, Option.some_bind, Option.some.injEq] at hrun
        subst hrun
        exact read_isr_old _ _ _ _ hs
  obtain ⟨⟨c0, c5, b0, b7, c4⟩, hclr⟩ := ok2
  have hc4 := c4 (Or.inr hlow)
  obtain ⟨hlen, hbits⟩ := hclr (Or.inr hlow)
  have hiff : ((if toInt32 (ktime_us_delta now tp) > 40 then
        g.data.set g.char_count.toNat
          ((g.data.getD g.char_count.toNat 0 ||| (1 <<< g.bit_count.toNat)) % 256)
      else g.data).getD g.char_count.toNat 0).testBit g.bit_count.toNat = true ↔
      toInt32 (ktime_us_delta now tp) > 40 := by
    rw [testBit_at_cursor _ _ _ b0 b7]
    have hclear := hbits (8 * g.char_count.toNat + (7 - g.bit_count.toNat)) (le_refl _)
      (by omega)
    by_cases hl : toInt32 (ktime_us_delta now tp) > 40
    · rw [if_pos hl, frame_bit_or_cursor _ _ _ _ hlen c0 hc4 b0 b7]
      simp [hl]
    · rw [if_neg hl, hclear]
      simp [hl]
  rw [read_isr_bit_low now g hlow c0 hc4 b0 b7, hold]
  refine ⟨_, rfl, hiff, ?_⟩
  intro h1 h2
  dsimp only
  rw [hiff, toInt32_of_range _ h1 h2]

set_option maxRecDepth 100000 in
/-- C15 at the edges `glitch` without the last one: the previous edge is the one
at 250 us, and the falling edge at 280 us leaves the bit clear. -/
theorem read_isr_pulse_width_witness :
    decoder_ok (arm init) ∧
    ∃ g, isr_run ([(0, 0), (80000, 1), (160000, 0), (210000, 1)] ++ [(250000, 1)])
        (arm init) = some g ∧ g.read_req = .READ_BIT_LOW ∧
      ∃ g1, read_isr 280000 0 g = some g1 ∧
        (g1.data.getD g.char_count.toNat 0).testBit g.bit_count.toNat = false := by
  have hok : decoder_ok (arm init) :=
    decoder_ok_of_not_reading _ (by decide) (by decide)
  refine ⟨hok, ?_⟩
  obtain ⟨g, hg, -⟩ := isr_run_decoder_ok
    ([(0, 0), (80000, 1), (160000, 0), (210000, 1)] ++ [(250000, 1)]) (arm init) hok
  have h1 : (isr_run ([(0, 0), (80000, 1), (160000, 0), (210000, 1)] ++ [(250000, 1)])
      (arm init)).map State.read_req = some .READ_BIT_LOW := by decide
  rw [hg] at h1
  have hlow : g.read_req = .READ_BIT_LOW := Option.some.inj h1
  obtain ⟨g1, h2, h3, -⟩ := read_isr_pulse_width
    [(0, 0), (80000, 1), (160000, 0), (210000, 1)] 250000 1 280000 (arm init) g hok hg hlow
  refine ⟨g, hg, hlow, g1, h2, ?_⟩
  have h4 : ¬ toInt32 (ktime_us_delta 280000 250000) > 40 := by decide
  rw [← h3] at h4
  simpa using h4

set_option maxRecDepth 100000 in
/-- C15 as stated fails on the edges `glitch`: the level-1 edge at 210 us moves the
decoder from `READ_BIT_HIGH` to `READ_BIT_LOW`, a second level-1 edge at 250 us
leaves it there, and the level-0 edge at 280 us comes 70 us after the pulse
started, yet bit 7 of byte 0 stays clear. -/
theorem read_isr_pulse_width_counterexample :
    (isr_run (glitch.take 3) (arm init)).map State.read_req = some .READ_BIT_HIGH ∧
    (isr_run (glitch.take 4) (arm init)).map State.read_req = some .READ_BIT_LOW ∧
    (isr_run (glitch.take 5) (arm init)).map State.read_req = some .READ_BIT_LOW ∧
    glitch.drop 3 = [(210000, 1), (250000, 1), (280000, 0)] ∧
    ktime_us_delta 280000 210000 > 40 ∧
    (isr_run glitch (arm init)).map
      (fun g => (g.read_req, g.char_count, g.bit_count, (g.data.getD 0 0).testBit 7)) =
        some (.READ_BIT_HIGH, 0, 6, false) := by
  decide

/-! ## Delays -/

theorem iter_line_error (e : Env) (g : State) (h0 : g.local_delay = 0)
    (hs : (start_read e.gpio_out e.gpio_in (begin_read g)).1 ≠ 0) :
    ∃ g1, read_thread_iter e g = some g1 ∧ g1.local_delay = g.read_delay := by
  refine ⟨(start_read e.gpio_out e.gpio_in (begin_read g)).2, ?_, ?_⟩
  · unfold read_thread_iter
    rw [if_neg (not_not.mpr h0)]
    dsimp only
    rw [if_pos hs]
  · exact (start_read_same_thread e.gpio_out e.gpio_in (begin_read g)).2.2.2.2.1

theorem iter_failed (e : Env) (g gf : State) (h0 : g.local_delay = 0)
    (hs : (start_read e.gpio_out e.gpio_in (begin_read g)).1 = 0)
    (hrun : isr_run e.events (arm (begin_read g)) = some gf)
    (hfail : e.wait = 0 ∨ cks gf.data ≠ gf.data.getD 4 0) :
    (do_read_data e.events e.wait (arm (begin_read g))).map Prod.fst = some (-1) ∧
    ∃ g1, read_thread_iter e g = some g1 ∧ g1.local_delay = SHORT_DELAY ∧
      (e.wait = 0 → g1.read_req = .READ_STOP) := by
  have hd := do_read_data_of_run (w := e.wait) hrun
  have hz := start_read_zero _ _ _ hs
  unfold read_thread_iter
  rw [if_neg (not_not.mpr h0)]
  dsimp only
  rw [if_neg (not_not.mpr hs), hz, hd]
  by_cases hw : e.wait = 0
  · rw [if_pos hw]
    refine ⟨rfl, _, rfl, ?_, ?_⟩
    · simp
    · intro _
      simp
  · have hc : cks gf.data ≠ gf.data.getD 4 0 := by
      rcases hfail with h | h
      · exact absurd h hw
      · exact h
    rw [if_neg hw, if_pos hc]
    refine ⟨rfl, _, rfl, ?_, ?_⟩
    · simp
    · intro h
      exact absurd h hw

/-- C11 (amended): when the wait runs out (`wait_event_interruptible_timeout`
returns 0) `do_read_data` returns the error -1 and stops the decoder, and the loop
sets the delay to the short delay `SHORT_DELAY = 3`, as it does after every other
failure of `do_read_data`. -/
theorem read_thread_timeout (e : Env) (g : State) (h0 : g.local_delay = 0)
    (hs : (start_read e.gpio_out e.gpio_in (begin_read g)).1 = 0) (hw : e.wait = 0) :
    (do_read_data e.events e.wait (arm (begin_read g))).map Prod.fst = some (-1) ∧
    ∃ g1, read_thread_iter e g = some g1 ∧ g1.local_delay = SHORT_DELAY ∧
      g1.read_req = .READ_STOP ∧ SHORT_DELAY = 3 := by
  have hva : cursor_valid (arm (begin_read g)) := by
    intro h
    simp [arm] at h
  obtain ⟨gf, hrun, -, -⟩ := isr_run_cursor_valid e.events _ hva
  obtain ⟨h1, g1, h2, h3, h4⟩ := iter_failed e g gf h0 hs hrun (Or.inl hw)
  exact ⟨h1, g1, h2, h3, h4 hw, rfl⟩

set_option maxRecDepth 100000 in
/-- C11 at the state `warm` when the sensor stops in the middle of a frame. -/
theorem read_thread_timeout_witness :
    warm.local_delay = 0 ∧
    (start_read cut_env.gpio_out cut_env.gpio_in (begin_read warm)).1 = 0 ∧
    cut_env.wait = 0 ∧
    ∃ g1, read_thread_iter cut_env warm = some g1 ∧ g1.local_delay = SHORT_DELAY ∧
      g1.read_req = .READ_STOP := by
  obtain ⟨-, g1, h1, h2, h3, -⟩ :=
    read_thread_timeout cut_env warm (by decide) (by decide) (by decide)
  exact ⟨by decide, by decide, by decide, g1, h1, h2, h3⟩

set_option maxRecDepth 100000 in
/-- C11 as stated fails: from the initial state the sensor stops in the middle of a
frame, the decoder is in `READ_BIT_HIGH` when the wait runs out, `do_read_data`
returns -1, and the delay becomes 3 although the default delay is 30. -/
theorem read_thread_timeout_counterexample :
    init.local_delay = 0 ∧ init.read_delay = 30 ∧ cut_env.wait = 0 ∧
    (isr_run cut_env.events (arm (begin_read init))).map State.read_req =
      some .READ_BIT_HIGH ∧
    (do_read_data cut_env.events cut_env.wait (arm (begin_read init))).map Prod.fst =
      some (-1) ∧
    (read_thread_iter cut_env init).map (fun g => (g.local_delay, g.read_delay)) =
      some (3, 30) := by
  decide

/-- C12: an iteration that makes an attempt returns with the delay set to
`_read_delay` (the default) after a line error, to `SHORT_DELAY = 3` after a
checksum mismatch, after a rejection by the filter and after the first accepted
frame, and to `_read_delay` after every later accepted frame. -/
theorem read_thread_delay (e : Env) (g : State) (hv : cursor_valid g)
    (h0 : g.local_delay = 0) :
    ∃ g1, read_thread_iter e g = some g1 ∧ SHORT_DELAY = 3 ∧
      ((start_read e.gpio_out e.gpio_in (begin_read g)).1 ≠ 0 →
        g1.local_delay = g.read_delay) ∧
      ((start_read e.gpio_out e.gpio_in (begin_read g)).1 = 0 → e.wait ≠ 0 →
        (∃ gf, isr_run e.events (arm (begin_read g)) = some gf ∧
          cks gf.data ≠ gf.data.getD 4 0) →
        g1.local_delay = SHORT_DELAY) ∧
      (∀ r, decoded e g = some r →
        (g.reads1 ≠ 0 → (50 < |r.t - g.sp.t| ∨ 100 < |r.rh - g.sp.rh|) →
          g1.local_delay = SHORT_DELAY) ∧
        (g.reads1 = 0 → g1.local_delay = SHORT_DELAY) ∧
        (g.reads1 ≠ 0 → ¬ (50 < |r.t - g.sp.t| ∨ 100 < |r.rh - g.sp.rh|) →
          g1.local_delay = g.read_delay)) := by
  obtain ⟨g1, hrun, -, -, -⟩ := read_thread_iter_total e g hv
  refine ⟨g1, hrun, rfl, ?_, ?_, ?_⟩
  · intro hs
    obtain ⟨g2, h2, h3⟩ := iter_line_error e g h0 hs
    rw [hrun] at h2
    rw [Option.some.inj h2]
    exact h3
  · rintro hs - ⟨gf, hf, hc⟩
    obtain ⟨-, g2, h2, h3, -⟩ := iter_failed e g gf h0 hs hf (Or.inr hc)
    rw [hrun] at h2
    rw [Option.some.inj h2]
    exact h3
  · intro r hd
    obtain ⟨g2, h2, -, -, hfirst, hrej, hacc⟩ := iter_decoded e g r hd
    rw [hrun] at h2
    have hg := Option.some.inj h2
    subst hg
    exact ⟨fun h1 hc => (hrej h1 hc).2.2, fun h1 => (hfirst h1).2.2,
      fun h1 hc => (hacc h1 hc).2.2⟩

set_option maxRecDepth 100000 in
/-- C12 at concrete iterations: a line error (delay 30), a wrong checksum (3), a
rejected frame (3), the first frame (3) and a later accepted frame (30). -/
theorem read_thread_delay_witness :
    (cursor_valid warm ∧ warm.local_delay = 0 ∧ cursor_valid init ∧ init.local_delay = 0) ∧
    (read_thread_iter line_error_env warm).map State.local_delay = some 30 ∧
    (read_thread_iter (frame_env [1, 244, 0, 240, 228]) warm).map State.local_delay =
      some 3 ∧
    (read_thread_iter (frame_env [1, 244, 1, 4, 250]) warm).map State.local_delay = some 3 ∧
    (read_thread_iter (frame_env [1, 244, 1, 4, 250]) init).map State.local_delay = some 3 ∧
    (read_thread_iter (frame_env [1, 244, 0, 240, 229]) warm).map State.local_delay =
      some 30 := by
  have hv : cursor_valid warm := by decide
  have hvi : cursor_valid init := by decide
  refine ⟨⟨hv, rfl, hvi, rfl⟩, ?_, ?_, ?_, ?_, ?_⟩
  · obtain ⟨g1, h1, -, h3, -, -⟩ := read_thread_delay line_error_env warm hv rfl
    rw [h1, Option.map_some', h3 (by decide)]
    rfl
  · obtain ⟨g1, h1, -, -, h4, -⟩ :=
      read_thread_delay (frame_env [1, 244, 0, 240, 228]) warm hv rfl
    rw [h1, Option.map_some', h4 (by decide) (by decide)
      ⟨(isr_run (frame_env [1, 244, 0, 240, 228]).events (arm (begin_read warm))).getD init,
        by decide, by decide⟩]
    rfl
  · obtain ⟨g1, h1, -, -, -, h5⟩ :=
      read_thread_delay (frame_env [1, 244, 1, 4, 250]) warm hv rfl
    rw [h1, Option.map_some',
      (h5 ⟨260, 500⟩ (by decide)).1 (by decide) (Or.inl (by decide))]
    rfl
  · obtain ⟨g1, h1, -, -, -, h5⟩ :=
      read_thread_delay (frame_env [1, 244, 1, 4, 250]) init hvi rfl
    rw [h1, Option.map_some', (h5 ⟨260, 500⟩ (by decide)).2.1 (by decide)]
    rfl
  · obtain ⟨g1, h1, -, -, -, h5⟩ :=
      read_thread_delay (frame_env [1, 244, 0, 240, 229]) warm hv rfl
    rw [h1, Option.map_some', (h5 ⟨240, 500⟩ (by decide)).2.2 (by decide) (by decide)]
    rfl

theorem run_read_delay (es : List Env) (g g1 : State) (h : run es g = some g1)
    (hv : cursor_valid g) : g1.read_delay = g.read_delay := by
  induction es generalizing g with
  | nil =>
    simp only [run, Option.some.injEq] at h
    rw [← h]
  | cons e es ih =>
    obtain ⟨g2, h2, v2, -, hd⟩ := read_thread_iter_total e g hv
    simp only [run, h2, Option.some_bind] at h
    rw [ih g2 h v2, hd]

/-! ## The reporting surface -/

theorem toString_neg_natCast (k : Nat) (hk : 0 < k) :
    toString (-(k : Int)) = "-" ++ toString k := by
  obtain ⟨m, rfl⟩ : ∃ m, k = m + 1 := ⟨k - 1, by omega⟩
  rfl

theorem tdiv_ten (t : Int) :
    Int.tdiv t 10 = if 0 ≤ t then t / 10 else -((-t) / 10) := by
  by_cases h : 0 ≤ t
  · rw [if_pos h, Int.tdiv_eq_ediv h (by decide)]
  · rw [if_neg h]
    have h1 : t = -(-t) := by omega
    rw [h1, Int.neg_tdiv, Int.tdiv_eq_ediv (by omega) (by decide)]
    simp

theorem tmod_ten (t : Int) : Int.tmod t 10 = t - 10 * Int.tdiv t 10 := Int.tmod_def t 10

theorem show_temp_text (g : State) (h2 : 2 ≤ g.reads1) :
    am231_show_temp g =
      (if g.sns.t ≤ -10 then "-" else "") ++ toString (g.sns.t.natAbs / 10) ++ "." ++
        toString (g.sns.t.natAbs % 10) ++ "\n" := by
  unfold am231_show_temp
  rw [if_neg (by omega)]
  have hd := tdiv_ten g.sns.t
  have hm := tmod_ten g.sns.t
  have hfrac : (Int.tmod g.sns.t 10).natAbs = g.sns.t.natAbs % 10 := by
    rw [hm, hd]
    split <;> omega
  rw [hfrac]
  congr 3
  by_cases hneg : g.sns.t ≤ -10
  · rw [if_pos hneg]
    have h1 : Int.tdiv g.sns.t 10 = -((g.sns.t.natAbs / 10 : Nat) : Int) := by
      rw [hd]
      split <;> omega
    rw [h1, toString_neg_natCast _ (by omega)]
  · rw [if_neg hneg]
    have h1 : Int.tdiv g.sns.t 10 = ((g.sns.t.natAbs / 10 : Nat) : Int) := by
      rw [hd]
      split <;> omega
    rw [h1]
    simp only [String.empty_append]
    rfl

set_option maxRecDepth 100000 in
/-- C14 as stated fails on the iterations `step_change`: the first attempt is
accepted (counter 1), the second is rejected by the filter (counter still 1), the
third is accepted (counter 2).  No two attempts that follow each other were both
accepted, yet both show functions report a value. -/
theorem am231_show_after_rejection :
    (run (step_change.take 1) init).map (fun g => (g.reads0, g.reads1)) = some (1, 1) ∧
    (run (step_change.take 5) init).map (fun g => (g.reads0, g.reads1)) = some (2, 1) ∧
    (run step_change init).map
      (fun g => (g.reads0, g.reads1, am231_show_temp g, am231_show_rh g)) =
        some (3, 2, "40.0\n", "50.0\n") := by
  decide

set_option maxRecDepth 100000 in
/-- C16 on the iterations `below_zero`: the accepted temperature is -5 tenths and
`am231_show_temp` prints `0.5`, without the sign; -50 and 235 tenths are printed
as `-5.0` and `23.5`. -/
theorem am231_show_temp_sign :
    (run below_zero init).map (fun g => (g.reads1, g.sns.t, am231_show_temp g)) =
      some (2, -5, "0.5\n") ∧
    am231_show_temp { init with reads1 := 2, sns := ⟨-50, 0⟩ } = "-5.0\n" ∧
    am231_show_temp { init with reads1 := 2, sns := ⟨235, 0⟩ } = "23.5\n" := by
  decide

/-! ## The reading that is shown -/

theorem last_pass_within (l : List st_inf) (r q : st_inf) (h : last_pass l = some (r, q)) :
    |r.t - q.t| ≤ 50 ∧ |r.rh - q.rh| ≤ 100 ∧ r ∈ l ∧ q ∈ l := by
  induction l with
  | nil => simp [last_pass] at h
  | cons a l ih =>
    cases l with
    | nil => simp [last_pass] at h
    | cons b rest =>
      simp only [last_pass] at h
      by_cases hc : |a.t - b.t| ≤ 50 ∧ |a.rh - b.rh| ≤ 100
      · rw [if_pos hc] at h
        simp only [Option.some.injEq, Prod.mk.injEq] at h
        obtain ⟨h1, h2⟩ := h
        subst h1 h2
        exact ⟨hc.1, hc.2, by simp, by simp⟩
      · rw [if_neg hc] at h
        obtain ⟨a1, a2, a3, a4⟩ := ih h
        exact ⟨a1, a2, List.mem_cons_of_mem _ a3, List.mem_cons_of_mem _ a4⟩

theorem record_ok (e : Env) (g g1 : State) (h : History)
    (hrun : read_thread_iter e g = some g1) (hok : history_ok g h) :
    history_ok g1 (record e g h) ∧ h.attempts ≤ (record e g h).attempts := by
  have hle : h.attempts ≤ (record e g h).attempts := by
    unfold record
    dsimp only
    split <;> omega
  refine ⟨?_, hle⟩
  intro hb
  obtain ⟨i1, i2, i3, i4⟩ := hok (by omega)
  cases hd : decoded e g with
  | none =>
    obtain ⟨a1, a2, a3, -⟩ := decoded_none e g g1 hd hrun
    have hdec : (record e g h).decodes = h.decodes := by
      unfold record
      rw [hd]
    rw [hdec, a1, a2, a3]
    exact ⟨by omega, i2, i3, i4⟩
  | some r =>
    obtain ⟨g2, hrun2, hsp, -, hfirst, hrej, hacc⟩ := iter_decoded e g r hd
    rw [hrun] at hrun2
    have hg := Option.some.inj hrun2
    subst hg
    obtain ⟨-, -, -, -, -, -, -, -, -, h0⟩ := decoded_some e g r hd
    have hdec : (record e g h).decodes = r :: h.decodes := by
      unfold record
      rw [hd]
    have hatt : (record e g h).attempts = h.attempts + 1 := by
      unfold record
      dsimp only
      rw [if_pos h0]
    rw [hatt] at hb
    rw [hdec, hatt]
    by_cases hz : g.reads1 = 0
    · obtain ⟨f1, -, -⟩ := hfirst hz
      refine ⟨by omega, by simp [f1], ?_, ?_⟩
      · intro q rest hq
        simp only [List.cons.injEq] at hq
        rw [hsp, hq.1]
      · intro h2
        omega
    · have hne : h.decodes ≠ [] := fun hn => hz (i2.mpr hn)
      obtain ⟨q, rest, hq⟩ := List.exists_cons_of_ne_nil hne
      have hspq := i3 q rest hq
      by_cases hc : 50 < |r.t - g.sp.t| ∨ 100 < |r.rh - g.sp.rh|
      · obtain ⟨a1, a2, -⟩ := hrej hz hc
        refine ⟨by omega, by simp [a1, hz], ?_, ?_⟩
        · intro q2 rest2 hq2
          simp only [List.cons.injEq] at hq2
          rw [hsp, hq2.1]
        · intro h2
          rw [a1] at h2
          obtain ⟨r0, q0, hl, hs⟩ := i4 h2
          refine ⟨r0, q0, ?_, by rw [a2]; exact hs⟩
          rw [hq, last_pass, if_neg, ← hq]
          · exact hl
          · rw [← hspq]
            exact mt (within_iff _ _).mpr (not_not.mpr hc)
      · obtain ⟨a1, a2, -⟩ := hacc hz hc
        have a3 : g1.reads1 = g.reads1 + 1 := by
          rw [a1]
          omega
        refine ⟨by omega, by simp [a3], ?_, ?_⟩
        · intro q2 rest2 hq2
          simp only [List.cons.injEq] at hq2
          rw [hsp, hq2.1]
        · intro _
          refine ⟨r, q, ?_, a2⟩
          rw [hq, last_pass, if_pos]
          rw [← hspq]
          exact (within_iff _ _).mp hc

theorem run_history_ok (es : List Env) (g : State) (h : History) (hv : cursor_valid g)
    (hok : history_ok g h) :
    ∃ g1 h1, run_history es g h = some (g1, h1) ∧ run es g = some g1 ∧ history_ok g1 h1 := by
  induction es generalizing g h with
  | nil => exact ⟨g, h, rfl, rfl, hok⟩
  | cons e es ih =>
    obtain ⟨g1, hrun, v1, -, -⟩ := read_thread_iter_total e g hv
    obtain ⟨ok1, -⟩ := record_ok e g g1 h hrun hok
    obtain ⟨g2, h2, a1, a2, a3⟩ := ih g1 (record e g h) v1 ok1
    exact ⟨g2, h2, by simp [run_history, hrun, a1], by simp [run, hrun, a2], a3⟩

theorem history_ok_init : history_ok init ⟨[], 0⟩ := by
  intro _
  refine ⟨by decide, by decide, ?_, ?_⟩
  · intro q rest h
    simp at h
  · intro h
    exact absurd h (by decide)

/-- C20: every sequence of iterations from the initial state returns.  If fewer
than 2^32 attempts were made and the accepted counter is at least 2, which is the
case whenever a show function reports anything but `NaN`, then the accepted
reading `sns` is the most recent decoded reading that passed the filter: a
checksum-valid reading `r` of the run within 50 tenths and 100 tenths of the
checksum-valid reading `q` decoded immediately before it.  So `sns` has been
assigned from a frame. -/
theorem shown_reading (es : List Env) :
    ∃ g h, run_history es init ⟨[], 0⟩ = some (g, h) ∧ run es init = some g ∧
      (g.reads1 < 2 → am231_show_temp g = "NaN\n" ∧ am231_show_rh g = "NaN\n") ∧
      (h.attempts < 4294967296 →
        (2 ≤ g.reads1 ∨ am231_show_temp g ≠ "NaN\n" ∨ am231_show_rh g ≠ "NaN\n") →
        ∃ r q, last_pass h.decodes = some (r, q) ∧ g.sns = r ∧
          |r.t - q.t| ≤ 50 ∧ |r.rh - q.rh| ≤ 100 ∧ r ∈ h.decodes ∧ q ∈ h.decodes) := by
  obtain ⟨g, h, h1, h2, hok⟩ := run_history_ok es init ⟨[], 0⟩ cursor_valid_init history_ok_init
  have hnan : g.reads1 < 2 → am231_show_temp g = "NaN\n" ∧ am231_show_rh g = "NaN\n" := by
    intro hlt
    exact ⟨if_pos hlt, if_pos hlt⟩
  refine ⟨g, h, h1, h2, hnan, ?_⟩
  intro hb hshow
  have h2le : 2 ≤ g.reads1 := by
    by_contra hlt
    have hn := hnan (by omega)
    rcases hshow with h3 | h3 | h3
    · exact hlt h3
    · exact h3 hn.1
    · exact h3 hn.2
  obtain ⟨-, -, -, i4⟩ := hok hb
  obtain ⟨r, q, hl, hs⟩ := i4 h2le
  obtain ⟨a1, a2, a3, a4⟩ := last_pass_within _ _ _ hl
  exact ⟨r, q, hl, hs, a1, a2, a3, a4⟩

set_option maxRecDepth 100000 in
/-- C20 on the iterations `step_change`: three attempts, the accepted counter is 2,
the temperature shown is 40.0 degrees, and the accepted reading is the third
decoded reading, equal to the second. -/
theorem shown_reading_witness :
    ∃ g h, run_history step_change init ⟨[], 0⟩ = some (g, h) ∧ h.attempts = 3 ∧
      g.reads1 = 2 ∧ am231_show_temp g = "40.0\n" ∧
      h.decodes = [⟨400, 500⟩, ⟨400, 500⟩, ⟨260, 500⟩] ∧
      last_pass h.decodes = some (⟨400, 500⟩, ⟨400, 500⟩) ∧ g.sns = ⟨400, 500⟩ := by
  obtain ⟨g, h, h1, -, -, h4⟩ := shown_reading step_change
  have h5 : (run_history step_change init ⟨[], 0⟩).map
      (fun x => (x.2.attempts, x.1.reads1, am231_show_temp x.1, x.2.decodes)) =
      some (3, 2, "40.0\n", [⟨400, 500⟩, ⟨400, 500⟩, ⟨260, 500⟩]) := by decide
  rw [h1] at h5
  simp only [Option.map_some', Option.some.injEq, Prod.mk.injEq] at h5
  obtain ⟨a1, a2, a3, a4⟩ := h5
  obtain ⟨r, q, b1, b2, -⟩ := h4 (by rw [a1]; decide) (Or.inl (by rw [a2]))
  have b3 : last_pass h.decodes = some (⟨400, 500⟩, ⟨400, 500⟩) := by
    rw [a4]
    decide
  rw [b3] at b1
  simp only [Option.some.injEq, Prod.mk.injEq] at b1
  exact ⟨g, h, h1, a1, a2, a3, a4, b3, by rw [b2, ← b1.1]⟩

/-! ## The gate of the show functions -/

theorem record_counted (e : Env) (g g1 : State) (h : History)
    (hrun : read_thread_iter e g = some g1) (hok : history_ok g h)
    (hc : counted_ok g h) : counted_ok g1 (record e g h) := by
  have hle : h.attempts ≤ (record e g h).attempts := (record_ok e g g1 h hrun hok).2
  intro hb
  obtain ⟨i1, i2, i3, -⟩ := hok (by omega)
  have hcnt := hc (by omega)
  cases hd : decoded e g with
  | none =>
    obtain ⟨-, a2, -, -⟩ := decoded_none e g g1 hd hrun
    have hdec : (record e g h).decodes = h.decodes := by
      unfold record
      rw [hd]
    rw [hdec, a2]
    exact hcnt
  | some r =>
    obtain ⟨g2, hrun2, -, -, hfirst, hrej, hacc⟩ := iter_decoded e g r hd
    rw [hrun] at hrun2
    have hg := Option.some.inj hrun2
    subst hg
    obtain ⟨-, -, -, -, -, -, -, -, -, h0⟩ := decoded_some e g r hd
    have hdec : (record e g h).decodes = r :: h.decodes := by
      unfold record
      rw [hd]
    have hatt : (record e g h).attempts = h.attempts + 1 := by
      unfold record
      dsimp only
      rw [if_pos h0]
    rw [hatt] at hb
    rw [hdec]
    by_cases hz : g.reads1 = 0
    · obtain ⟨f1, -, -⟩ := hfirst hz
      rw [i2.mp hz, f1]
      rfl
    · have hne : h.decodes ≠ [] := fun hn => hz (i2.mpr hn)
      obtain ⟨q, rest, hq⟩ := List.exists_cons_of_ne_nil hne
      have hspq := i3 q rest hq
      rw [hq] at hcnt ⊢
      by_cases hcnd : 50 < |r.t - g.sp.t| ∨ 100 < |r.rh - g.sp.rh|
      · obtain ⟨a1, -, -⟩ := hrej hz hcnd
        have hw : ¬ (|r.t - q.t| ≤ 50 ∧ |r.rh - q.rh| ≤ 100) := by
          rw [← hspq]
          exact mt (within_iff _ _).mpr (not_not.mpr hcnd)
        rw [a1, hcnt]
        conv_rhs => rw [accepts]
        simp only [hw, if_false, Nat.zero_add]
      · obtain ⟨a1, -, -⟩ := hacc hz hcnd
        have hw : |r.t - q.t| ≤ 50 ∧ |r.rh - q.rh| ≤ 100 := by
          rw [← hspq]
          exact (within_iff _ _).mp hcnd
        have a3 : g1.reads1 = g.reads1 + 1 := by
          rw [a1]
          omega
        rw [a3, hcnt]
        conv_rhs => rw [accepts]
        simp only [hw, and_self, if_true]
        omega

theorem run_history_counted (es : List Env) (g : State) (h : History) (hv : cursor_valid g)
    (hok : history_ok g h) (hc : counted_ok g h) (g1 : State) (h1 : History)
    (hrun : run_history es g h = some (g1, h1)) : counted_ok g1 h1 := by
  induction es generalizing g h with
  | nil =>
    simp only [run_history, Option.some.injEq, Prod.mk.injEq] at hrun
    rw [← hrun.1, ← hrun.2]
    exact hc
  | cons e es ih =>
    obtain ⟨g2, hstep, v2, -, -⟩ := read_thread_iter_total e g hv
    simp only [run_history, hstep, Option.some_bind] at hrun
    exact ih g2 (record e g h) v2 (record_ok e g g2 h hstep hok).1
      (record_counted e g g2 h hstep hok hc) hrun

/-- C14 (amended): every sequence of iterations from the initial state returns.
Both show functions report `NaN` while the accepted counter `_reads[1]` is below 2.
With fewer than 2^32 attempts the counter is the number of accepted readings of
the run (the first decoded reading and every decoded reading within 50 and 100
tenths of the one decoded immediately before it), so a value is shown only if at
least two readings were accepted; the attempts that delivered them need not
follow each other. -/
theorem am231_show_gate (es : List Env) :
    ∃ g h, run_history es init ⟨[], 0⟩ = some (g, h) ∧ run es init = some g ∧
      (g.reads1 < 2 → am231_show_temp g = "NaN\n" ∧ am231_show_rh g = "NaN\n") ∧
      ((am231_show_temp g ≠ "NaN\n" ∨ am231_show_rh g ≠ "NaN\n") → 2 ≤ g.reads1) ∧
      (h.attempts < 4294967296 → g.reads1 = accepts h.decodes) ∧
      (h.attempts < 4294967296 →
        (am231_show_temp g ≠ "NaN\n" ∨ am231_show_rh g ≠ "NaN\n") →
        2 ≤ accepts h.decodes) := by
  obtain ⟨g, h, h1, h2, hok⟩ :=
    run_history_ok es init ⟨[], 0⟩ cursor_valid_init history_ok_init
  have hcnt : counted_ok g h :=
    run_history_counted es init ⟨[], 0⟩ cursor_valid_init history_ok_init
      (fun _ => rfl) g h h1
  have hnan : g.reads1 < 2 → am231_show_temp g = "NaN\n" ∧ am231_show_rh g = "NaN\n" := by
    intro hlt
    exact ⟨if_pos hlt, if_pos hlt⟩
  have hshow : (am231_show_temp g ≠ "NaN\n" ∨ am231_show_rh g ≠ "NaN\n") →
      2 ≤ g.reads1 := by
    intro hs
    by_contra hlt
    have hn := hnan (by omega)
    rcases hs with h3 | h3
    · exact h3 hn.1
    · exact h3 hn.2
  refine ⟨g, h, h1, h2, hnan, hshow, hcnt, ?_⟩
  intro hb hs
  rw [← hcnt hb]
  exact hshow hs

set_option maxRecDepth 100000 in
/-- C14 on the iterations `step_change`: three attempts, the readings 26.0, 40.0
and 40.0 degrees were decoded, two of them were accepted (the first and the
third), and 40.0 is shown. -/
theorem am231_show_gate_witness :
    ∃ g h, run_history step_change init ⟨[], 0⟩ = some (g, h) ∧ h.attempts = 3 ∧
      h.decodes = [⟨400, 500⟩, ⟨400, 500⟩, ⟨260, 500⟩] ∧
      am231_show_temp g = "40.0\n" ∧ g.reads1 = 2 ∧ accepts h.decodes = 2 := by
  obtain ⟨g, h, h1, -, -, h4, h5, -⟩ := am231_show_gate step_change
  have h6 : (run_history step_change init ⟨[], 0⟩).map
      (fun x => (x.2.attempts, x.2.decodes, am231_show_temp x.1)) =
      some (3, [⟨400, 500⟩, ⟨400, 500⟩, ⟨260, 500⟩], "40.0\n") := by decide
  rw [h1] at h6
  simp only [Option.map_some', Option.some.injEq, Prod.mk.injEq] at h6
  obtain ⟨a1, a2, a3⟩ := h6
  have a4 : accepts h.decodes = 2 := by
    rw [a2]
    decide
  have a5 : g.reads1 = 2 := by
    rw [h5 (by rw [a1]; decide), a4]
  exact ⟨g, h, h1, a1, a2, a3, a5, a4⟩

end AM2301
